import Mathlib

set_option autoImplicit false

/-!
Shallow embedding of the Joint Work Plan (JWP) tracker (`src/main.py`),
restricted to the change-detection / audit-trail mechanism and the admin
CSV import.  Cell values are dynamically typed Python values; tables model
pandas DataFrames with an integer index (a unique label per row, as
produced by `get_all_records`); the Google-Sheets spreadsheet is a `Store`
value, and the wall clock is abstracted as a function `time : Nat → String`
giving the rendered `strftime` string of the k-th `datetime.now()` call.
-/

namespace JWP

/-- Dynamically typed cell value.  `vFloat n` models a Python float whose
value is the integer `n` (the only floats the development needs); `vNone`
models Python `None`. -/
inductive Value where
  | vStr (s : String)
  | vInt (n : Int)
  | vFloat (n : Int)
  | vNone
deriving DecidableEq, Repr

/-- Python `==` on cell values (the comparison pandas applies elementwise in
`df != df2` and `df.equals`): numeric values compare by value across
int/float, so `100 == 100.0` is true; distinct types otherwise compare
unequal; `None == None` is true. -/
def Value.pyEq : Value → Value → Bool
  | .vStr a, .vStr b => a == b
  | .vInt a, .vInt b => a == b
  | .vFloat a, .vFloat b => a == b
  | .vInt a, .vFloat b => a == b
  | .vFloat a, .vInt b => a == b
  | .vNone, .vNone => true
  | _, _ => false

/-- Python `str()` of a cell value: `str(100) = "100"`, `str(100.0) = "100.0"`,
`str(None) = "None"`. -/
def Value.pyStr : Value → String
  | .vStr s => s
  | .vInt n => toString n
  | .vFloat n => toString n ++ ".0"
  | .vNone => "None"

/-- Table modelling a pandas DataFrame: an ordered column list and ordered
rows, each row paired with its index label (rows are `(label, cells)` with
`cells` aligned positionally with `cols`). -/
structure Table where
  cols : List String
  rows : List (Nat × List Value)
deriving DecidableEq, Repr

/-- Index labels of a table, in row order. -/
def Table.ids (t : Table) : List Nat := t.rows.map Prod.fst

/-- Well-formedness: every row has exactly one cell per column. -/
def Table.wf (t : Table) : Bool :=
  t.rows.all (fun p => p.2.length == t.cols.length)

/-- Position of a column label in the column list (first occurrence, as for
a pandas label lookup on a duplicate-free column index). -/
def colIdx (cols : List String) (c : String) : Option Nat :=
  match cols with
  | [] => none
  | x :: xs => if x == c then some 0 else (colIdx xs c).map (· + 1)

/-- Label-based cell read `series[col]`: position of `col` in the column
list, then the cell at that position; `none` models a Python `KeyError`. -/
def getVal (cols : List String) (cells : List Value) (c : String) : Option Value :=
  (colIdx cols c).bind (fun i => cells.get? i)

/-- Label-based cell write `df.loc[i, col] = v` restricted to a single row's
cells; callers establish that `col` exists (the app's tables all share the
master's column list). -/
def setVal (cols : List String) (cells : List Value) (c : String) (v : Value) : List Value :=
  match colIdx cols c with
  | some i => cells.set i v
  | none => cells

/-- Row lookup by index label, `df.loc[i]`; `none` models a `KeyError`.
Labels are unique in the app (default integer index). -/
def lookupRow : List (Nat × List Value) → Nat → Option (List Value)
  | [], _ => none
  | p :: ps, i => if p.1 = i then some p.2 else lookupRow ps i

/-- Row-level write `df.loc[i, ...]`: transform the cells of every row whose
label is `i`, leaving all other rows untouched. -/
def setMasterRow (rows : List (Nat × List Value)) (i : Nat)
    (f : List Value → List Value) : List (Nat × List Value) :=
  rows.map (fun p => if p.1 = i then (p.1, f p.2) else p)

/-- Errors that can escape the modelled code paths: `nameError` is Python's
`NameError`/`UnboundLocalError`, `keyError` a pandas label `KeyError`, and
`valueError` the `ValueError` pandas raises when comparing DataFrames that
are not identically labelled. -/
inductive PyError where
  | nameError
  | keyError
  | valueError
deriving DecidableEq, Repr

/-- The three editable columns checked by the save loop (line 231). -/
def editableFields : List String :=
  ["End Date", "Budget Spent", "Progress / Achievement to Date"]

/-- Columns the CSV import requires (line 310). -/
def requiredCols : List String := ["Outcome", "Sub-Output", "Agency", "Activity"]

/-- The full column list of the master table (lines 111-114). -/
def stdCols : List String :=
  ["Outcome", "Sub-Output", "Agency", "Activity",
   "End Date", "Budget Spent", "Progress / Achievement to Date", "Last Updated"]

/-- Rendering of one change, `f"from \x27{original}\x27 to \x27{edited}\x27"`
(line 233). -/
def fromToDescr (before after : String) : String :=
  "from \x27" ++ before ++ "\x27 to \x27" ++ after ++ "\x27"

/-- Python `json.dumps` of the `change_details` dict, whose keys appear in
insertion order. -/
def jsonDumps (changes : List (String × String)) : String :=
  "\x7b" ++ String.intercalate ", "
    (changes.map (fun p => "\"" ++ p.1 ++ "\": \"" ++ p.2 ++ "\"")) ++ "\x7d"

/-- Row-wise `(edited_row != baseline_row).any()`: true when some cell pair
differs under Python `==` (rows are positionally aligned; the app's tables
are well-formed so both rows have one cell per column). -/
def rowNe (a b : List Value) : Bool :=
  (a.zip b).any (fun p => ! p.1.pyEq p.2)

/-- Pandas `DataFrame.equals` on the app's object-valued frames: same
columns, same index labels, same shape, and elementwise Python equality. -/
def dfEquals (a b : Table) : Bool :=
  a.cols == b.cols && a.ids == b.ids &&
  ((a.rows.zip b.rows).all
    (fun p => p.1.2.length == p.2.2.length && ! rowNe p.1.2 p.2.2))

/-- Lines 222-223: `diff_mask = (edited_df != agency_df).any(axis=1)` and
`changed_rows = edited_df[diff_mask]`.  Comparing DataFrames that are not
identically labelled (same columns and same index, in order) raises a
pandas `ValueError`. -/
def changedRows (agencyT edited : Table) : Except PyError (List (Nat × List Value)) :=
  if agencyT.cols == edited.cols && agencyT.ids == edited.ids then
    .ok ((edited.rows.zip agencyT.rows).filterMap
      (fun p => if rowNe p.1.2 p.2.2 then some p.1 else none))
  else .error .valueError

/-- Lines 230-233: for each column in `editableFields`, compare the edited
cell with the master cell under `str()` equality, recording
`col ↦ "from ... to ..."` for each difference, in field order (dict
insertion order).  A missing label is a `KeyError`. -/
def change_details (eCols : List String) (eCells : List Value)
    (mCols : List String) (mCells : List Value) :
    List String → Except PyError (List (String × String))
  | [] => .ok []
  | c :: cs =>
    match getVal eCols eCells c, getVal mCols mCells c with
    | some ev, some mv =>
      match change_details eCols eCells mCols mCells cs with
      | .error e => .error e
      | .ok rest =>
        .ok (if ev.pyStr ≠ mv.pyStr then (c, fromToDescr mv.pyStr ev.pyStr) :: rest else rest)
    | _, _ => .error .keyError

/-- Pure form of `change_details` when every label resolves: the editable
fields whose display strings differ, each with its description. -/
def detailsPure (eCols : List String) (eCells : List Value)
    (mCols : List String) (mCells : List Value) : List (String × String) :=
  editableFields.filterMap (fun c =>
    match getVal eCols eCells c, getVal mCols mCells c with
    | some ev, some mv =>
      if ev.pyStr ≠ mv.pyStr then some (c, fromToDescr mv.pyStr ev.pyStr) else none
    | _, _ => none)

/-- Line 190: `master_df[master_df['Agency'] == user_agency]` — keep the rows
whose `Agency` cell compares `==` to the logged-in agency string. -/
def filterAgency (t : Table) (ag : String) : Table :=
  ⟨t.cols, t.rows.filter
    (fun p => ((getVal t.cols p.2 "Agency").getD Value.vNone).pyEq (Value.vStr ag))⟩

/-- Point at which a master-table write fails, when it fails: `atOpen`
models a failure before the sheet is touched, `afterClear` one between
`sheet.clear()` and `sheet.update(...)` (line 66-68). -/
inductive FailPoint where
  | atOpen
  | afterClear
deriving DecidableEq, Repr

/-- State of the `JWP_Data` spreadsheet: the `Sheet1` master worksheet, the
`Audit_Log` worksheet (`none` when the worksheet does not exist), and
whether a master-table write will fail on this attempt. -/
structure Store where
  master : Option Table
  auditLog : Option (List (List String))
  masterWriteFail : Option FailPoint
deriving DecidableEq, Repr

/-- Lines 60-72, `update_gsheet_from_dataframe`: clear the worksheet and
upload the whole DataFrame, returning `True` on success and `False` (after
showing an error) on any exception.  A failure before the clear leaves the
sheet as it was; one after the clear leaves it empty. -/
def update_gsheet_from_dataframe (store : Store) (df : Table) : Bool × Store :=
  match store.masterWriteFail with
  | none => (true, { store with master := some df })
  | some .atOpen => (false, store)
  | some .afterClear => (false, { store with master := some ⟨[], []⟩ })

/-- Header row written when the `Audit_Log` worksheet is first created
(line 85). -/
def auditHeader : List String :=
  ["Timestamp", "User Name", "User Email", "Agency", "Activity", "Changes"]

/-- Actor metadata taken from the session state. -/
structure User where
  name : String
  email : String
  agency : String
deriving DecidableEq, Repr

/-- Result of a `log_edit` call: the store afterwards, the number of
`datetime.now()` calls consumed so far, and `some e` when an exception
escapes the function. -/
structure LogResult where
  store : Store
  k : Nat
  err : Option PyError
deriving DecidableEq, Repr

/-- Lines 74-89, `log_edit`.  When the `Audit_Log` worksheet exists, one
`datetime.now()` is taken and the entry appended.  When it does not, the
`WorksheetNotFound` handler creates the worksheet, appends the header row,
and then evaluates `log_entry = [timestamp, ...]` — but `timestamp` was
only ever assigned inside the `try` block, after the lookup that raised, so
this raises `UnboundLocalError` (a `NameError`), which no sibling handler
catches: it propagates to the caller with the header already written and
the entry never appended. -/
def log_edit (time : Nat → String) (store : Store) (k : Nat)
    (user_name user_email agency : String) (activity : Value)
    (changes : List (String × String)) : LogResult :=
  match store.auditLog with
  | some rows =>
    let timestamp := time k
    let entry := [timestamp, user_name, user_email, agency, activity.pyStr, jsonDumps changes]
    ⟨{ store with auditLog := some (rows ++ [entry]) }, k + 1, none⟩
  | none =>
    ⟨{ store with auditLog := some [auditHeader] }, k, some .nameError⟩

/-- Lines 247-249, the in-memory update of one changed master row: first
`master_df.loc[index, 'Last Updated'] = now()`, then
`for col, val in row.items(): master_df.loc[index, col] = val`, which
copies every cell of the edited row — including its (old) `Last Updated`
value — over the row just stamped. -/
def updateRow (cols : List String) (masterCells editedCells : List Value)
    (ts : String) : List Value :=
  (cols.zip editedCells).foldl (fun acc p => setVal cols acc p.1 p.2)
    (setVal cols masterCells "Last Updated" (Value.vStr ts))

/-- State threaded through the save loop: the spreadsheet, the count of
`datetime.now()` calls made, and the in-memory `master_df`. -/
structure LoopState where
  store : Store
  k : Nat
  master : Table
deriving DecidableEq, Repr

/-- Lines 225-249, the loop over `changed_rows.iterrows()`.  For each
`(index, row)`: read `master_df.loc[index]` and its `Activity` cell, compute
`change_details`, and when non-empty call `log_edit` (which takes one clock
reading) and update the row in the in-memory master (taking another clock
reading for `Last Updated`).  An uncaught exception aborts the loop with
the state reached so far. -/
def processRows (time : Nat → String) (user : User) (eCols : List String) :
    List (Nat × List Value) → LoopState → Except (PyError × LoopState) LoopState
  | [], st => .ok st
  | (i, cells) :: rest, st =>
    match lookupRow st.master.rows i with
    | none => .error (.keyError, st)
    | some orig =>
      match getVal st.master.cols orig "Activity" with
      | none => .error (.keyError, st)
      | some act =>
        match change_details eCols cells st.master.cols orig editableFields with
        | .error e => .error (e, st)
        | .ok ds =>
          if ds.isEmpty then processRows time user eCols rest st
          else
            let lr := log_edit time st.store st.k user.name user.email user.agency act ds
            match lr.err with
            | some e => .error (e, ⟨lr.store, lr.k, st.master⟩)
            | none =>
              let ts := time lr.k
              let m2 : Table := ⟨st.master.cols,
                setMasterRow st.master.rows i (fun mc => updateRow st.master.cols mc cells ts)⟩
              processRows time user eCols rest ⟨lr.store, lr.k + 1, m2⟩

/-- State the loop ends in, whether it finishes or is aborted by an
exception. -/
def loopStateOf : Except (PyError × LoopState) LoopState → LoopState
  | .ok st => st
  | .error (_, st) => st

/-- The loop state after one changed row has been logged (appending `entry`
to the audit rows `L`) and written into the in-memory master; spelled out
so proofs can name the state the loop recurses on. -/
def afterLog (time : Nat → String) (st : LoopState) (L : List (List String))
    (entry : List String) (i : Nat) (cells : List Value) : LoopState :=
  ⟨{ st.store with auditLog := some (L ++ [entry]) }, st.k + 1 + 1,
   ⟨st.master.cols,
    setMasterRow st.master.rows i
      (fun mc => updateRow st.master.cols mc cells (time (st.k + 1)))⟩⟩

/-- Message the save branch ends with. -/
inductive SaveMsg where
  | success
  | saveFailed
  | noChanges
  | crashed (e : PyError)
deriving DecidableEq, Repr

/-- Outcome of one press of "Save Updates": final store, clock position,
message, the table passed to `update_gsheet_from_dataframe` (when
reached), and the in-memory master DataFrame at the end. -/
structure SaveOutcome where
  store : Store
  k : Nat
  msg : SaveMsg
  wrote : Option Table
  finalMaster : Table
deriving DecidableEq, Repr

/-- Lines 217-258 of `stakeholder_view`, the "Save Updates" branch: if the
edited frame `.equals` the agency baseline, report no changes; otherwise
compute the changed rows (which raises on non-identically-labelled frames),
run the per-row loop, and overwrite the whole master table in the store. -/
def stakeholder_save (time : Nat → String) (store0 : Store) (k0 : Nat)
    (user : User) (master edited : Table) : SaveOutcome :=
  let agencyT := filterAgency master user.agency
  if dfEquals edited agencyT then
    ⟨store0, k0, .noChanges, none, master⟩
  else
    match changedRows agencyT edited with
    | .error e => ⟨store0, k0, .crashed e, none, master⟩
    | .ok ch =>
      match processRows time user edited.cols ch ⟨store0, k0, master⟩ with
      | .error (e, st) => ⟨st.store, st.k, .crashed e, none, st.master⟩
      | .ok st =>
        let r := update_gsheet_from_dataframe st.store st.master
        ⟨r.2, st.k, if r.1 then .success else .saveFailed, some st.master, st.master⟩

/-- Change-detection step of lines 219-244 as a pure function: the entries
the save loop would log, each `(row label, Activity value, details)`, in
edited-row order.  `master` is the full master frame, `agencyT` the
baseline the actor edited, `edited` the edited frame. -/
def batchDetails (mCols : List String) (mRows : List (Nat × List Value))
    (eCols : List String) :
    List (Nat × List Value) →
    Except PyError (List (Nat × Value × List (String × String)))
  | [] => .ok []
  | (i, cells) :: rest =>
    match lookupRow mRows i with
    | none => .error .keyError
    | some orig =>
      match getVal mCols orig "Activity" with
      | none => .error .keyError
      | some act =>
        match change_details eCols cells mCols orig editableFields with
        | .error e => .error e
        | .ok ds =>
          match batchDetails mCols mRows eCols rest with
          | .error e => .error e
          | .ok tail => .ok (if ds.isEmpty then tail else (i, act, ds) :: tail)

/-- Entry one changed row contributes, when every label of the computation
resolves: `none` when the row's editable fields all agree under display
strings (or the row's master lookup would fail), otherwise the
`(label, Activity, details)` triple. -/
def entryOf (mCols : List String) (mRows : List (Nat × List Value))
    (eCols : List String) (p : Nat × List Value) :
    Option (Nat × Value × List (String × String)) :=
  match lookupRow mRows p.1 with
  | none => none
  | some orig =>
    match getVal mCols orig "Activity" with
    | none => none
    | some act =>
      let ds := detailsPure eCols p.2 mCols orig
      if ds.isEmpty then none else some (p.1, act, ds)

/-- Lines 219-244: which rows produce a change entry (and hence an audit
record), and with which field details. -/
def computeBatch (master agencyT edited : Table) :
    Except PyError (List (Nat × Value × List (String × String))) :=
  if dfEquals edited agencyT then .ok []
  else
    match changedRows agencyT edited with
    | .error e => .error e
    | .ok ch => batchDetails master.cols master.rows edited.cols ch

/-- Adding a defaulted column, `new_df[col] = v` (lines 313-316): appended
at the end of the column list, with every row receiving `v`. -/
def addColumn (t : Table) (c : String) (v : Value) : Table :=
  if t.cols.contains c then t
  else ⟨t.cols ++ [c], t.rows.map (fun p => (p.1, p.2 ++ [v]))⟩

/-- Lines 313-316: fill each absent optional column with its default
(`End Date` → `None`, `Budget Spent` → `0`,
`Progress / Achievement to Date` → `""`, `Last Updated` → `None`). -/
def withDefaults (t : Table) : Table :=
  addColumn (addColumn (addColumn (addColumn t
    "End Date" Value.vNone)
    "Budget Spent" (Value.vInt 0))
    "Progress / Achievement to Date" (Value.vStr ""))
    "Last Updated" Value.vNone

/-- Message the CSV-import branch ends with. -/
inductive ImportMsg where
  | success
  | overwriteFailed
  | validationError
deriving DecidableEq, Repr

/-- Lines 306-327 of `admin_view`, the CSV upload branch with the
"Confirm Overwrite" button pressed: reject the file when a required column
is missing (no store access), otherwise default the optional columns and
overwrite the whole master table. -/
def admin_import (store : Store) (csv : Table) : Store × ImportMsg :=
  if requiredCols.all (fun c => csv.cols.contains c) then
    let newT := withDefaults csv
    let r := update_gsheet_from_dataframe store newT
    (r.2, if r.1 then .success else .overwriteFailed)
  else (store, .validationError)

/-! Concrete scenarios used to evaluate the model at specific inputs. -/

/-- A WHO master row, activity `A1`, budget 100. -/
def rowA1 : List Value :=
  [.vStr "O1", .vStr "S1", .vStr "WHO", .vStr "A1",
   .vStr "2024-06-30", .vInt 100, .vStr "Started", .vStr "2024-01-01"]

/-- `rowA1` with `Budget Spent` edited to 250. -/
def rowA1b : List Value :=
  [.vStr "O1", .vStr "S1", .vStr "WHO", .vStr "A1",
   .vStr "2024-06-30", .vInt 250, .vStr "Started", .vStr "2024-01-01"]

/-- `rowA1` with `Budget Spent` re-entered as the float `100.0`: equal to
the integer 100 under Python `==`, different under `str()`. -/
def rowA1f : List Value :=
  [.vStr "O1", .vStr "S1", .vStr "WHO", .vStr "A1",
   .vStr "2024-06-30", .vFloat 100, .vStr "Started", .vStr "2024-01-01"]

/-- A second WHO master row, activity `A2`, budget 7. -/
def rowA2 : List Value :=
  [.vStr "O1", .vStr "S1", .vStr "WHO", .vStr "A2",
   .vStr "2024-06-30", .vInt 7, .vStr "Started", .vStr "2024-01-01"]

/-- `rowA2` with `Budget Spent` edited to 8. -/
def rowA2b : List Value :=
  [.vStr "O1", .vStr "S1", .vStr "WHO", .vStr "A2",
   .vStr "2024-06-30", .vInt 8, .vStr "Started", .vStr "2024-01-01"]

/-- `rowA2` with `Budget Spent` re-entered as the float `7.0`. -/
def rowA2f : List Value :=
  [.vStr "O1", .vStr "S1", .vStr "WHO", .vStr "A2",
   .vStr "2024-06-30", .vFloat 7, .vStr "Started", .vStr "2024-01-01"]

/-- One-row master table holding `rowA1`. -/
def master1 : Table := ⟨stdCols, [(0, rowA1)]⟩

/-- `master1` with the budget edited to 250. -/
def edited1 : Table := ⟨stdCols, [(0, rowA1b)]⟩

/-- `master1` with the budget re-entered as a float. -/
def edited1f : Table := ⟨stdCols, [(0, rowA1f)]⟩

/-- Two-row WHO master table. -/
def master2 : Table := ⟨stdCols, [(0, rowA1), (1, rowA2)]⟩

/-- `master2` with both budgets edited. -/
def edited2 : Table := ⟨stdCols, [(0, rowA1b), (1, rowA2b)]⟩

/-- One-row master table holding `rowA2`. -/
def master3 : Table := ⟨stdCols, [(0, rowA2)]⟩

/-- `master3` with the budget re-entered as a float. -/
def edited3f : Table := ⟨stdCols, [(0, rowA2f)]⟩

/-- The WHO stakeholder of the scenarios. -/
def ana : User := ⟨"Ana", "ana@who.int", "WHO"⟩

/-- A clock whose k-th reading renders as `toString k`: every call sees a
fresh wall-clock string. -/
def tickClock : Nat → String := fun n => toString n

/-- Store for `master1` with an existing audit log and a reliable sheet. -/
def store1 : Store := ⟨some master1, some [auditHeader], none⟩

/-- Store for `master2` with an existing audit log and a reliable sheet. -/
def store2 : Store := ⟨some master2, some [auditHeader], none⟩

/-- Store for `master1` in which the `Audit_Log` worksheet does not exist. -/
def store1NoLog : Store := ⟨some master1, none, none⟩

/-- Store for `master1` whose next master write fails before the sheet is
touched. -/
def store1Fail : Store := ⟨some master1, some [auditHeader], some .atOpen⟩

/-- A CSV upload with only the four required columns. -/
def csvMinimal : Table :=
  ⟨["Outcome", "Sub-Output", "Agency", "Activity"],
   [(0, [.vStr "O1", .vStr "S1", .vStr "WHO", .vStr "A1"])]⟩

/-- A CSV upload missing the required `Activity` column. -/
def csvMissing : Table :=
  ⟨["Outcome", "Sub-Output", "Agency"],
   [(0, [.vStr "O1", .vStr "S1", .vStr "WHO"])]⟩

/-! Basic lemmas about cell and row access. -/

lemma colIdx_lt_length {cols : List String} {c : String} {i : Nat}
    (h : colIdx cols c = some i) : i < cols.length := by
  induction cols generalizing i with
  | nil => simp [colIdx] at h
  | cons x xs ih =>
    rw [colIdx] at h
    by_cases hx : (x == c) = true
    · rw [if_pos hx] at h
      injection h with h
      simp only [List.length_cons]
      omega
    · rw [if_neg hx] at h
      obtain ⟨j, hj, rfl⟩ := Option.map_eq_some'.mp h
      have := ih hj
      simp only [List.length_cons]
      omega

lemma colIdx_isSome_of_mem {cols : List String} {c : String}
    (h : c ∈ cols) : ∃ i, colIdx cols c = some i := by
  induction cols with
  | nil => simp at h
  | cons x xs ih =>
    rw [colIdx]
    by_cases hx : (x == c) = true
    · exact ⟨0, by rw [if_pos hx]⟩
    · rcases List.mem_cons.mp h with h | h
      · exact absurd (by simp [h]) hx
      · obtain ⟨i, hi⟩ := ih h
        exact ⟨i + 1, by rw [if_neg hx, hi]; rfl⟩

lemma getVal_isSome {cols : List String} {cells : List Value} {c : String}
    (hc : c ∈ cols) (hl : cols.length ≤ cells.length) :
    ∃ v, getVal cols cells c = some v := by
  obtain ⟨i, hi⟩ := colIdx_isSome_of_mem hc
  have hlt : i < cells.length := lt_of_lt_of_le (colIdx_lt_length hi) hl
  refine ⟨cells.get ⟨i, hlt⟩, ?_⟩
  rw [getVal, hi]
  exact List.get?_eq_get hlt

lemma length_setVal (cols : List String) (cells : List Value) (c : String)
    (v : Value) : (setVal cols cells c v).length = cells.length := by
  rw [setVal]
  split
  · exact List.length_set cells _ _
  · rfl

lemma length_foldl_setVal (cols : List String) :
    ∀ (l : List (String × Value)) (acc : List Value),
    (l.foldl (fun a p => setVal cols a p.1 p.2) acc).length = acc.length := by
  intro l
  induction l with
  | nil => intro acc; rfl
  | cons p ps ih =>
    intro acc
    rw [List.foldl_cons, ih, length_setVal]

lemma length_updateRow (cols : List String) (mc ec : List Value) (ts : String) :
    (updateRow cols mc ec ts).length = mc.length := by
  rw [updateRow, length_foldl_setVal, length_setVal]

lemma lookupRow_of_mem_nodup {rows : List (Nat × List Value)} {i : Nat}
    {cs : List Value} (hnd : (rows.map Prod.fst).Nodup)
    (hm : (i, cs) ∈ rows) : lookupRow rows i = some cs := by
  induction rows with
  | nil => simp at hm
  | cons p ps ih =>
    rw [List.map_cons, List.nodup_cons] at hnd
    rcases List.mem_cons.mp hm with hm | hm
    · rw [← hm, lookupRow, if_pos rfl]
    · have hne : p.1 ≠ i := fun hb =>
        hnd.1 (hb ▸ (List.mem_map.mpr ⟨(i, cs), hm, rfl⟩))
      rw [lookupRow, if_neg hne]
      exact ih hnd.2 hm

lemma lookupRow_mem {rows : List (Nat × List Value)} {i : Nat}
    {cs : List Value} (h : lookupRow rows i = some cs) : (i, cs) ∈ rows := by
  induction rows with
  | nil => simp [lookupRow] at h
  | cons p ps ih =>
    rw [lookupRow] at h
    by_cases hp : p.1 = i
    · rw [if_pos hp] at h
      injection h with h
      exact List.mem_cons.mpr (.inl (by rw [← hp, ← h]))
    · rw [if_neg hp] at h
      exact List.mem_cons.mpr (.inr (ih h))

lemma lookupRow_isSome_of_mem_ids {rows : List (Nat × List Value)} {i : Nat}
    (h : i ∈ rows.map Prod.fst) :
    ∃ cs, lookupRow rows i = some cs ∧ (i, cs) ∈ rows := by
  induction rows with
  | nil => simp at h
  | cons p ps ih =>
    by_cases hp : p.1 = i
    · refine ⟨p.2, by rw [lookupRow, if_pos hp], ?_⟩
      exact List.mem_cons.mpr (.inl (by rw [← hp]))
    · have h' : i = p.1 ∨ i ∈ ps.map Prod.fst := by
        rw [List.map_cons, List.mem_cons] at h
        exact h
      rcases h' with h' | h'
      · exact absurd h'.symm hp
      · obtain ⟨cs, h1, h2⟩ := ih h'
        exact ⟨cs, by rw [lookupRow, if_neg hp]; exact h1, List.mem_cons.mpr (.inr h2)⟩

lemma setMasterRow_ids (rows : List (Nat × List Value)) (i : Nat)
    (f : List Value → List Value) :
    (setMasterRow rows i f).map Prod.fst = rows.map Prod.fst := by
  induction rows with
  | nil => rfl
  | cons p ps ih =>
    rw [setMasterRow, List.map_cons, List.map_cons, List.map_cons]
    rw [setMasterRow] at ih
    rw [ih]
    by_cases hp : p.1 = i
    · rw [if_pos hp]
    · rw [if_neg hp]

lemma lookupRow_setMasterRow_ne {rows : List (Nat × List Value)} {i j : Nat}
    (f : List Value → List Value) (h : j ≠ i) :
    lookupRow (setMasterRow rows i f) j = lookupRow rows j := by
  induction rows with
  | nil => rfl
  | cons p ps ih =>
    rw [setMasterRow, List.map_cons]
    rw [setMasterRow] at ih
    by_cases hp : p.1 = i
    · rw [if_pos hp, lookupRow, lookupRow, if_neg (by simpa [hp] using fun hc => h hc.symm), if_neg (hp ▸ fun hc => h hc.symm)]
      exact ih
    · rw [if_neg hp]
      by_cases hj : p.1 = j
      · rw [lookupRow, lookupRow, if_pos hj, if_pos hj]
      · rw [lookupRow, lookupRow, if_neg hj, if_neg hj]
        exact ih

lemma lookupRow_setMasterRow_self (rows : List (Nat × List Value)) (i : Nat)
    (f : List Value → List Value) :
    lookupRow (setMasterRow rows i f) i = (lookupRow rows i).map f := by
  induction rows with
  | nil => rfl
  | cons p ps ih =>
    rw [setMasterRow, List.map_cons]
    rw [setMasterRow] at ih
    by_cases hp : p.1 = i
    · rw [if_pos hp, lookupRow, lookupRow, if_pos hp, if_pos hp]
      rfl
    · rw [if_neg hp, lookupRow, lookupRow, if_neg hp, if_neg hp]
      exact ih

/-! Lemmas about the change-detection computation. -/

lemma wf_length {t : Table} (h : t.wf = true) {p : Nat × List Value}
    (hp : p ∈ t.rows) : p.2.length = t.cols.length := by
  rw [Table.wf, List.all_eq_true] at h
  simpa using h p hp

lemma change_details_ok (eCols : List String) (eCells : List Value)
    (mCols : List String) (mCells : List Value) :
    ∀ fields : List String,
    (∀ c ∈ fields,
      (∃ v, getVal eCols eCells c = some v) ∧ (∃ v, getVal mCols mCells c = some v)) →
    change_details eCols eCells mCols mCells fields
      = .ok (fields.filterMap (fun c =>
          match getVal eCols eCells c, getVal mCols mCells c with
          | some ev, some mv =>
            if ev.pyStr ≠ mv.pyStr then some (c, fromToDescr mv.pyStr ev.pyStr) else none
          | _, _ => none)) := by
  intro fields
  induction fields with
  | nil => intro _; rfl
  | cons c cs ih =>
    intro h
    obtain ⟨⟨ev, hev⟩, mv, hmv⟩ := h c (List.mem_cons_self c cs)
    have ht := ih (fun d hd => h d (List.mem_cons.mpr (.inr hd)))
    simp only [change_details, hev, hmv, ht, List.filterMap_cons]
    by_cases hne : ev.pyStr = mv.pyStr
    · simp [hne]
    · simp [hne]

lemma change_details_editable (eCols : List String) (eCells : List Value)
    (mCols : List String) (mCells : List Value)
    (h : ∀ c ∈ editableFields,
      (∃ v, getVal eCols eCells c = some v) ∧ (∃ v, getVal mCols mCells c = some v)) :
    change_details eCols eCells mCols mCells editableFields
      = .ok (detailsPure eCols eCells mCols mCells) :=
  change_details_ok eCols eCells mCols mCells editableFields h

lemma batchDetails_eq (mCols : List String) (mRows : List (Nat × List Value))
    (eCols : List String) :
    ∀ chs : List (Nat × List Value),
    (∀ p ∈ chs, ∃ orig, lookupRow mRows p.1 = some orig
        ∧ (∃ a, getVal mCols orig "Activity" = some a)
        ∧ (∀ c ∈ editableFields,
            (∃ v, getVal eCols p.2 c = some v) ∧ (∃ v, getVal mCols orig c = some v))) →
    batchDetails mCols mRows eCols chs
      = .ok (chs.filterMap (entryOf mCols mRows eCols)) := by
  intro chs
  induction chs with
  | nil => intro _; rfl
  | cons p ps ih =>
    intro h
    obtain ⟨orig, ho, ⟨a, ha⟩, hf⟩ := h p (List.mem_cons_self p ps)
    have ht := ih (fun q hq => h q (List.mem_cons.mpr (.inr hq)))
    obtain ⟨i, cells⟩ := p
    simp only [batchDetails, ho, ha, change_details_editable _ _ _ _ hf, ht,
      List.filterMap_cons, entryOf]
    by_cases hd : (detailsPure eCols cells mCols orig).isEmpty
    · simp [hd]
    · simp [hd]

lemma dfEquals_false_of_rowNe {e a : Table} {q : (Nat × List Value) × Nat × List Value}
    (hq : q ∈ e.rows.zip a.rows) (hne : rowNe q.1.2 q.2.2 = true) :
    dfEquals e a = false := by
  rw [← Bool.not_eq_true, dfEquals]
  intro h
  rw [Bool.and_eq_true, Bool.and_eq_true, List.all_eq_true] at h
  have := h.2 q hq
  rw [Bool.and_eq_true] at this
  rw [hne] at this
  exact absurd this.2 (by simp)

lemma dfEquals_true_facts {e a : Table} (h : dfEquals e a = true) :
    e.cols = a.cols ∧ e.ids = a.ids ∧
      ∀ q ∈ e.rows.zip a.rows, rowNe q.1.2 q.2.2 = false := by
  rw [dfEquals, Bool.and_eq_true, Bool.and_eq_true, List.all_eq_true] at h
  refine ⟨by simpa using h.1.1, by simpa using h.1.2, fun q hq => ?_⟩
  have := h.2 q hq
  rw [Bool.and_eq_true] at this
  simpa using this.2

lemma changedRows_eq {a e : Table} (hc : a.cols = e.cols) (hi : a.ids = e.ids) :
    changedRows a e = .ok ((e.rows.zip a.rows).filterMap
      (fun p => if rowNe p.1.2 p.2.2 then some p.1 else none)) := by
  rw [changedRows, if_pos]
  rw [Bool.and_eq_true]
  exact ⟨by simp [hc], by simp [hi]⟩

lemma filterMap_if_fst_sublist {α β : Type} (q : α → Bool) (f : α → β) :
    ∀ l : List α,
    List.Sublist (l.filterMap fun x => if q x then some (f x) else none) (l.map f) := by
  intro l
  induction l with
  | nil => simp
  | cons x xs ih =>
    rw [List.filterMap_cons, List.map_cons]
    by_cases hx : q x = true
    · rw [if_pos hx]
      exact ih.cons₂ _
    · rw [if_neg hx]
      exact ih.cons _

lemma zip_filterMap_fst_sublist {α : Type} (q : (α × α) → Bool)
    {l₁ l₂ : List α} (hlen : l₁.length ≤ l₂.length) :
    List.Sublist ((l₁.zip l₂).filterMap fun p => if q p then some p.1 else none) l₁ := by
  have h := filterMap_if_fst_sublist q Prod.fst (l₁.zip l₂)
  rwa [List.map_fst_zip l₁ l₂ hlen] at h

lemma ids_length {t : Table} : t.ids.length = t.rows.length := List.length_map _ _

lemma mem_filterAgency_iff {t : Table} {ag : String} {p : Nat × List Value} :
    p ∈ (filterAgency t ag).rows ↔ p ∈ t.rows ∧
      ((getVal t.cols p.2 "Agency").getD Value.vNone).pyEq (Value.vStr ag) = true := by
  rw [filterAgency]
  exact List.mem_filter

lemma snd_unique_of_nodup {rows : List (Nat × List Value)} {i : Nat}
    {a b : List Value} (hnd : (rows.map Prod.fst).Nodup)
    (ha : (i, a) ∈ rows) (hb : (i, b) ∈ rows) : a = b := by
  have h1 := lookupRow_of_mem_nodup hnd ha
  have h2 := lookupRow_of_mem_nodup hnd hb
  exact Option.some.inj (h1.symm.trans h2)

lemma setMasterRow_wf {rows : List (Nat × List Value)} {i : Nat}
    {f : List Value → List Value} {L : Nat}
    (hf : ∀ cs, (f cs).length = cs.length)
    (h : rows.all (fun p => p.2.length == L) = true) :
    (setMasterRow rows i f).all (fun p => p.2.length == L) = true := by
  rw [List.all_eq_true] at h ⊢
  intro q hq
  rw [setMasterRow] at hq
  obtain ⟨p, hp, hpq⟩ := List.mem_map.mp hq
  by_cases hpi : p.1 = i
  · rw [if_pos hpi] at hpq
    have := h p hp
    rw [← hpq]
    simpa [hf p.2] using this
  · rw [if_neg hpi] at hpq
    rw [← hpq]
    exact h p hp

/-! Lemmas about the save loop. -/

lemma log_edit_some {time : Nat → String} {store : Store} {k : Nat}
    {n e a : String} {act : Value} {ch : List (String × String)}
    {L : List (List String)} (h : store.auditLog = some L) :
    log_edit time store k n e a act ch
      = ⟨{ store with
             auditLog := some (L ++ [[time k, n, e, a, act.pyStr, jsonDumps ch]]) },
          k + 1, none⟩ := by
  rw [log_edit, h]

lemma log_edit_none {time : Nat → String} {store : Store} {k : Nat}
    {n e a : String} {act : Value} {ch : List (String × String)}
    (h : store.auditLog = none) :
    log_edit time store k n e a act ch
      = ⟨{ store with auditLog := some [auditHeader] }, k, some .nameError⟩ := by
  rw [log_edit, h]

lemma processRows_store (time : Nat → String) (user : User) (eCols : List String) :
    ∀ (chs : List (Nat × List Value)) (st : LoopState),
    (loopStateOf (processRows time user eCols chs st)).store.master = st.store.master ∧
    (loopStateOf (processRows time user eCols chs st)).store.masterWriteFail
      = st.store.masterWriteFail := by
  intro chs
  induction chs with
  | nil => intro st; exact ⟨rfl, rfl⟩
  | cons p ps ih =>
    intro st
    obtain ⟨i, cells⟩ := p
    rw [processRows]
    split
    · exact ⟨rfl, rfl⟩
    · split
      · exact ⟨rfl, rfl⟩
      · split
        · exact ⟨rfl, rfl⟩
        · split
          · exact ih st
          · cases hau : st.store.auditLog with
            | none =>
              rw [log_edit_none hau]
              exact ⟨rfl, rfl⟩
            | some L =>
              rw [log_edit_some hau]
              exact ih _

lemma processRows_cols (time : Nat → String) (user : User) (eCols : List String) :
    ∀ (chs : List (Nat × List Value)) (st : LoopState),
    (loopStateOf (processRows time user eCols chs st)).master.cols = st.master.cols := by
  intro chs
  induction chs with
  | nil => intro st; rfl
  | cons p ps ih =>
    intro st
    obtain ⟨i, cells⟩ := p
    rw [processRows]
    split
    · rfl
    · split
      · rfl
      · split
        · rfl
        · split
          · exact ih st
          · cases hau : st.store.auditLog with
            | none =>
              rw [log_edit_none hau]
              rfl
            | some L =>
              rw [log_edit_some hau]
              exact ih _

lemma processRows_ids (time : Nat → String) (user : User) (eCols : List String) :
    ∀ (chs : List (Nat × List Value)) (st : LoopState),
    (loopStateOf (processRows time user eCols chs st)).master.rows.map Prod.fst
      = st.master.rows.map Prod.fst := by
  intro chs
  induction chs with
  | nil => intro st; rfl
  | cons p ps ih =>
    intro st
    obtain ⟨i, cells⟩ := p
    rw [processRows]
    split
    · rfl
    · split
      · rfl
      next act hga =>
        split
        · rfl
        next ds hcd =>
          split
          · exact ih st
          · cases hau : st.store.auditLog with
            | none =>
              rw [log_edit_none hau]
              rfl
            | some L =>
              rw [log_edit_some hau]
              have h1 := ih (afterLog time st L [time st.k, user.name, user.email,
                user.agency, act.pyStr, jsonDumps ds] i cells)
              simp only [afterLog] at h1
              rw [setMasterRow_ids] at h1
              exact h1

lemma processRows_audit (time : Nat → String) (user : User) (eCols : List String) :
    ∀ (chs : List (Nat × List Value)) (st : LoopState) (L : List (List String)),
    st.store.auditLog = some L →
    ∃ es, (loopStateOf (processRows time user eCols chs st)).store.auditLog
        = some (L ++ es)
      ∧ ∀ r ∈ es, ∃ k a ds,
          r = [time k, user.name, user.email, user.agency, a, jsonDumps ds] := by
  intro chs
  induction chs with
  | nil =>
    intro st L hau
    exact ⟨[], by simpa using hau, by simp⟩
  | cons p ps ih =>
    intro st L hau
    obtain ⟨i, cells⟩ := p
    rw [processRows]
    split
    · exact ⟨[], by simpa using hau, by simp⟩
    · split
      · exact ⟨[], by simpa using hau, by simp⟩
      next act hga =>
        split
        · exact ⟨[], by simpa using hau, by simp⟩
        next ds hcd =>
          split
          · exact ih st L hau
          · rw [log_edit_some hau]
            obtain ⟨es, h1, h2⟩ := ih
              (afterLog time st L [time st.k, user.name, user.email, user.agency,
                act.pyStr, jsonDumps ds] i cells) _ rfl
            rw [List.append_assoc] at h1
            refine ⟨[time st.k, user.name, user.email, user.agency,
              act.pyStr, jsonDumps ds] :: es, h1, ?_⟩
            intro r hr
            rcases List.mem_cons.mp hr with hr | hr
            · exact ⟨st.k, act.pyStr, ds, hr⟩
            · exact h2 r hr

lemma processRows_frame (time : Nat → String) (user : User) (eCols : List String) :
    ∀ (chs : List (Nat × List Value)) (st : LoopState) (j : Nat),
    (∀ p ∈ chs, p.1 ≠ j) →
    lookupRow (loopStateOf (processRows time user eCols chs st)).master.rows j
      = lookupRow st.master.rows j := by
  intro chs
  induction chs with
  | nil => intro st j _; rfl
  | cons p ps ih =>
    intro st j hj
    obtain ⟨i, cells⟩ := p
    have hij : i ≠ j := hj (i, cells) (List.mem_cons_self _ _)
    have hj' : ∀ p ∈ ps, p.1 ≠ j := fun q hq => hj q (List.mem_cons.mpr (.inr hq))
    rw [processRows]
    split
    · rfl
    · split
      · rfl
      next act hga =>
        split
        · rfl
        next ds hcd =>
          split
          · exact ih st j hj'
          · cases hau : st.store.auditLog with
            | none =>
              rw [log_edit_none hau]
              rfl
            | some L =>
              rw [log_edit_some hau]
              have h1 := ih (afterLog time st L [time st.k, user.name, user.email,
                user.agency, act.pyStr, jsonDumps ds] i cells) j hj'
              simp only [afterLog] at h1
              rw [lookupRow_setMasterRow_ne _ (fun hc => hij hc.symm)] at h1
              exact h1

lemma processRows_update (time : Nat → String) (user : User) (eCols : List String) :
    ∀ (chs : List (Nat × List Value)) (st : LoopState) (j : Nat),
    (chs.map Prod.fst).Nodup →
    lookupRow (loopStateOf (processRows time user eCols chs st)).master.rows j
      = lookupRow st.master.rows j
    ∨ ∃ ec oc ts, (j, ec) ∈ chs ∧ lookupRow st.master.rows j = some oc ∧
        lookupRow (loopStateOf (processRows time user eCols chs st)).master.rows j
          = some (updateRow st.master.cols oc ec ts) := by
  intro chs
  induction chs with
  | nil =>
    intro st j _
    left
    rfl
  | cons p ps ih =>
    intro st j hnd
    obtain ⟨i, cells⟩ := p
    rw [List.map_cons, List.nodup_cons] at hnd
    have hnotin : i ∉ ps.map Prod.fst := hnd.1
    have hnd' : (ps.map Prod.fst).Nodup := hnd.2
    rw [processRows]
    split
    · left; rfl
    next orig hlo =>
      split
      · left; rfl
      next act hga =>
        split
        · left; rfl
        next ds hcd =>
          split
          · rcases ih st j hnd' with h | ⟨ec, oc, ts, hm, h1, h2⟩
            · left; exact h
            · right; exact ⟨ec, oc, ts, List.mem_cons.mpr (.inr hm), h1, h2⟩
          · cases hau : st.store.auditLog with
            | none =>
              rw [log_edit_none hau]
              left
              rfl
            | some L =>
              rw [log_edit_some hau]
              by_cases hij : i = j
              · subst hij
                have hj' : ∀ q ∈ ps, q.1 ≠ i :=
                  fun q hq hqi => hnotin (List.mem_map.mpr ⟨q, hq, hqi⟩)
                have hfr := processRows_frame time user eCols ps
                  (afterLog time st L [time st.k, user.name, user.email,
                    user.agency, act.pyStr, jsonDumps ds] i cells) i hj'
                simp only [afterLog, lookupRow_setMasterRow_self, hlo,
                  Option.map_some'] at hfr
                right
                exact ⟨cells, orig, time (st.k + 1), List.mem_cons_self _ _, hlo, hfr⟩
              · have h := ih (afterLog time st L [time st.k, user.name, user.email,
                  user.agency, act.pyStr, jsonDumps ds] i cells) j hnd'
                simp only [afterLog] at h
                rw [lookupRow_setMasterRow_ne _ (fun hc => hij hc.symm)] at h
                rcases h with h | ⟨ec, oc, ts, hm, h1, h2⟩
                · left; exact h
                · right; exact ⟨ec, oc, ts, List.mem_cons.mpr (.inr hm), h1, h2⟩

lemma processRows_ok (time : Nat → String) (user : User) (eCols : List String) :
    ∀ (chs : List (Nat × List Value)) (st : LoopState) (L : List (List String)),
    st.store.auditLog = some L →
    st.master.wf = true →
    "Activity" ∈ st.master.cols →
    (∀ c ∈ editableFields, c ∈ st.master.cols) →
    (∀ c ∈ editableFields, c ∈ eCols) →
    (∀ p ∈ chs, p.1 ∈ st.master.rows.map Prod.fst ∧ eCols.length ≤ p.2.length) →
    ∃ st2, processRows time user eCols chs st = .ok st2 := by
  intro chs
  induction chs with
  | nil =>
    intro st L _ _ _ _ _ _
    exact ⟨st, rfl⟩
  | cons p ps ih =>
    intro st L hau hwf hact hmcols hecols hrows
    obtain ⟨i, cells⟩ := p
    obtain ⟨hid, hel⟩ := hrows (i, cells) (List.mem_cons_self _ _)
    obtain ⟨orig, ho, homem⟩ := lookupRow_isSome_of_mem_ids hid
    have horiglen : orig.length = st.master.cols.length := wf_length hwf homem
    obtain ⟨a, ha⟩ := getVal_isSome hact (le_of_eq horiglen.symm)
    have hcd := change_details_editable eCols cells st.master.cols orig
      (fun c hc => ⟨getVal_isSome (hecols c hc) hel,
        getVal_isSome (hmcols c hc) (le_of_eq horiglen.symm)⟩)
    have hrows' : ∀ q ∈ ps, q.1 ∈ st.master.rows.map Prod.fst ∧ eCols.length ≤ q.2.length :=
      fun q hq => hrows q (List.mem_cons.mpr (.inr hq))
    simp only [processRows, ho, ha, hcd]
    by_cases hde : (detailsPure eCols cells st.master.cols orig).isEmpty = true
    · rw [if_pos hde]
      exact ih st L hau hwf hact hmcols hecols hrows'
    · rw [if_neg hde]
      rw [log_edit_some hau]
      have hwf2 : (Table.mk st.master.cols
          (setMasterRow st.master.rows i
            (fun mc => updateRow st.master.cols mc cells (time (st.k + 1))))).wf = true :=
        setMasterRow_wf (fun cs => length_updateRow _ _ _ _) hwf
      have hrows2 : ∀ q ∈ ps,
          q.1 ∈ (setMasterRow st.master.rows i
            (fun mc => updateRow st.master.cols mc cells (time (st.k + 1)))).map Prod.fst
          ∧ eCols.length ≤ q.2.length := by
        intro q hq
        rw [setMasterRow_ids]
        exact hrows' q hq
      obtain ⟨st2, hst2⟩ := ih
        (afterLog time st L [time st.k, user.name, user.email, user.agency,
          a.pyStr, jsonDumps (detailsPure eCols cells st.master.cols orig)] i cells)
        _ rfl hwf2 hact hmcols hecols hrows2
      exact ⟨st2, hst2⟩

/-! Lemmas characterising the pure change-detection step. -/

lemma computeBatch_of_equals {master agencyT edited : Table}
    (h : dfEquals edited agencyT = true) :
    computeBatch master agencyT edited = .ok [] := by
  rw [computeBatch, if_pos h]

lemma ch_mem_edited {e a : List (Nat × List Value)} {p : Nat × List Value}
    (hp : p ∈ (e.zip a).filterMap
      (fun q => if rowNe q.1.2 q.2.2 then some q.1 else none)) :
    p ∈ e ∧ ∃ ac, (p, ac) ∈ e.zip a ∧ rowNe p.2 ac.2 = true := by
  obtain ⟨q, hq, hqe⟩ := List.mem_filterMap.mp hp
  by_cases hne : rowNe q.1.2 q.2.2 = true
  · rw [if_pos hne] at hqe
    injection hqe with hqe
    obtain ⟨q1, q2⟩ := q
    have hq1 : q1 = p := hqe
    subst hq1
    exact ⟨(List.of_mem_zip hq).1, q2, hq, hne⟩
  · rw [if_neg hne] at hqe
    simp at hqe

lemma ch_mem_of_pair {e a : List (Nat × List Value)}
    {q : (Nat × List Value) × Nat × List Value}
    (hq : q ∈ e.zip a) (hne : rowNe q.1.2 q.2.2 = true) :
    q.1 ∈ (e.zip a).filterMap
      (fun q => if rowNe q.1.2 q.2.2 then some q.1 else none) :=
  List.mem_filterMap.mpr ⟨q, hq, by rw [if_pos hne]⟩

lemma computeBatch_of_ne {master agencyT edited : Table}
    (h : dfEquals edited agencyT = false)
    (hcols : agencyT.cols = edited.cols) (hids : agencyT.ids = edited.ids)
    (hcond : ∀ p ∈ edited.rows, ∃ orig, lookupRow master.rows p.1 = some orig
        ∧ (∃ a, getVal master.cols orig "Activity" = some a)
        ∧ (∀ c ∈ editableFields,
            (∃ v, getVal edited.cols p.2 c = some v)
            ∧ (∃ v, getVal master.cols orig c = some v))) :
    computeBatch master agencyT edited
      = .ok (((edited.rows.zip agencyT.rows).filterMap
          (fun q => if rowNe q.1.2 q.2.2 then some q.1 else none)).filterMap
            (entryOf master.cols master.rows edited.cols)) := by
  rw [computeBatch, if_neg (by simp [h]), changedRows_eq hcols hids]
  exact batchDetails_eq _ _ _ _
    (fun p hp => hcond p (ch_mem_edited hp).1)

lemma zip_snd_fst_eq {e a : List (Nat × List Value)}
    (hids : a.map Prod.fst = e.map Prod.fst) :
    ∀ q ∈ e.zip a, q.2.1 = q.1.1 := by
  induction e generalizing a with
  | nil => intro q hq; simp at hq
  | cons p e' ih =>
    intro q hq
    cases a with
    | nil => simp at hq
    | cons r a' =>
      rw [List.map_cons, List.map_cons] at hids
      injection hids with h1 h2
      rcases List.mem_cons.mp hq with hq | hq
      · rw [hq]
        exact h1
      · exact ih h2 q hq

lemma zip_pair_of_mem {e a : List (Nat × List Value)}
    (hids : a.map Prod.fst = e.map Prod.fst) {i : Nat} {ec : List Value}
    (hm : (i, ec) ∈ e) : ∃ ac, ((i, ec), (i, ac)) ∈ e.zip a := by
  induction e generalizing a with
  | nil => simp at hm
  | cons p e' ih =>
    cases a with
    | nil =>
      rw [List.map_nil, List.map_cons] at hids
      exact absurd hids (by simp)
    | cons r a' =>
      rw [List.map_cons, List.map_cons] at hids
      injection hids with h1 h2
      rcases List.mem_cons.mp hm with hm | hm
      · obtain ⟨r1, r2⟩ := r
        refine ⟨r2, List.mem_cons.mpr (.inl ?_)⟩
        rw [← hm] at h1 ⊢
        simp only at h1
        rw [h1]
      · obtain ⟨ac, hac⟩ := ih h2 hm
        exact ⟨ac, List.mem_cons.mpr (.inr hac)⟩

lemma entryOf_fst {mCols : List String} {mRows : List (Nat × List Value)}
    {eCols : List String} {p : Nat × List Value}
    {i : Nat} {x : Value × List (String × String)}
    (h : entryOf mCols mRows eCols p = some (i, x)) : p.1 = i := by
  rw [entryOf] at h
  rcases hlo : lookupRow mRows p.1 with _ | orig
  · simp only [hlo] at h
    exact Option.noConfusion h
  · simp only [hlo] at h
    rcases hga : getVal mCols orig "Activity" with _ | act
    · simp only [hga] at h
      exact Option.noConfusion h
    · simp only [hga] at h
      by_cases hd : (detailsPure eCols p.2 mCols orig).isEmpty = true
      · rw [if_pos hd] at h
        exact Option.noConfusion h
      · rw [if_neg hd] at h
        injection h with h
        exact congrArg Prod.fst h

lemma entryOf_some {mCols : List String} {mRows : List (Nat × List Value)}
    {eCols : List String} {i : Nat} {ec orig : List Value} {a : Value}
    (ho : lookupRow mRows i = some orig)
    (ha : getVal mCols orig "Activity" = some a)
    (hne : (detailsPure eCols ec mCols orig).isEmpty = false) :
    entryOf mCols mRows eCols (i, ec)
      = some (i, a, detailsPure eCols ec mCols orig) := by
  rw [entryOf]
  simp only [ho, ha]
  rw [if_neg (by simp [hne])]

lemma entryOf_none {mCols : List String} {mRows : List (Nat × List Value)}
    {eCols : List String} {i : Nat} {ec orig : List Value} {a : Value}
    (ho : lookupRow mRows i = some orig)
    (ha : getVal mCols orig "Activity" = some a)
    (hemp : (detailsPure eCols ec mCols orig).isEmpty = true) :
    entryOf mCols mRows eCols (i, ec) = none := by
  rw [entryOf]
  simp only [ho, ha]
  rw [if_pos hemp]

lemma get?_zip_eq {α β : Type} :
    ∀ (l1 : List α) (l2 : List β) (n : Nat),
    (l1.zip l2).get? n = (l1.get? n).bind (fun a => (l2.get? n).map (fun b => (a, b))) := by
  intro l1
  induction l1 with
  | nil => intro l2 n; rfl
  | cons x xs ih =>
    intro l2 n
    cases l2 with
    | nil =>
      rcases (x :: xs).get? n with _ | a <;> rfl
    | cons y ys =>
      cases n with
      | zero => rfl
      | succ m => exact ih ys m

lemma rowNe_true_of_getVal {cols : List String} {e m : List Value} {c : String}
    {ev mv : Value} (hev : getVal cols e c = some ev) (hmv : getVal cols m c = some mv)
    (hne : ev.pyEq mv = false) : rowNe e m = true := by
  rw [getVal] at hev hmv
  rcases hci : colIdx cols c with _ | i
  · rw [hci] at hev
    exact Option.noConfusion hev
  · rw [hci] at hev hmv
    have hev' : e.get? i = some ev := hev
    have hmv' : m.get? i = some mv := hmv
    have hz : (e.zip m).get? i = some (ev, mv) := by
      rw [get?_zip_eq, hev', hmv']
      rfl
    have hmem : (ev, mv) ∈ e.zip m := List.get?_mem hz
    rw [rowNe, List.any_eq_true]
    exact ⟨(ev, mv), hmem, by rw [hne]; rfl⟩

lemma filterMap_eq_singleton {α β : Type} {l : List α} {g : α → Option β} {x : α} {v : β}
    (hl : l.Nodup) (hx : x ∈ l) (hgx : g x = some v)
    (hothers : ∀ y ∈ l, y ≠ x → g y = none) : l.filterMap g = [v] := by
  induction l with
  | nil => simp at hx
  | cons z zs ih =>
    rw [List.nodup_cons] at hl
    rw [List.filterMap_cons]
    rcases List.mem_cons.mp hx with hx | hx
    · rw [← hx, hgx]
      have hz : zs.filterMap g = [] := List.filterMap_eq_nil_iff.mpr
        (fun y hy => hothers y (List.mem_cons.mpr (.inr hy))
          (fun hyx => hl.1 (by rw [← hx, ← hyx]; exact hy)))
      rw [hz]
    · have hzx : z ≠ x := fun hzx => hl.1 (hzx ▸ hx)
      rw [hothers z (List.mem_cons_self _ _) hzx]
      exact ih hl.2 hx (fun y hy hyx => hothers y (List.mem_cons.mpr (.inr hy)) hyx)

lemma eq_of_fst_eq_of_nodup {α β : Type} {l : List (α × β)}
    (h : (l.map Prod.fst).Nodup) {x y : α × β}
    (hx : x ∈ l) (hy : y ∈ l) (hxy : x.1 = y.1) : x = y := by
  induction l with
  | nil => simp at hx
  | cons z zs ih =>
    rw [List.map_cons, List.nodup_cons] at h
    rcases List.mem_cons.mp hx with hx | hx <;> rcases List.mem_cons.mp hy with hy | hy
    · rw [hx, hy]
    · exact absurd (List.mem_map.mpr ⟨y, hy, (hxy ▸ (hx ▸ rfl) : y.1 = z.1)⟩) h.1
    · exact absurd (List.mem_map.mpr ⟨x, hx, (hxy ▸ (hy ▸ rfl) : x.1 = z.1).symm ▸ rfl⟩) h.1
    · exact ih h.2 hx hy

lemma detailsPure_isEmpty_iff {eCols : List String} {eCells : List Value}
    {mCols : List String} {mCells : List Value}
    (hsome : ∀ c ∈ editableFields,
      (∃ v, getVal eCols eCells c = some v) ∧ (∃ v, getVal mCols mCells c = some v)) :
    (detailsPure eCols eCells mCols mCells).isEmpty = true ↔
      ∀ c ∈ editableFields,
        (getVal eCols eCells c).map Value.pyStr
          = (getVal mCols mCells c).map Value.pyStr := by
  rw [List.isEmpty_iff, detailsPure, List.filterMap_eq_nil_iff]
  constructor
  · intro h c hc
    obtain ⟨⟨ev, hev⟩, mv, hmv⟩ := hsome c hc
    have h2 := h c hc
    simp only [hev, hmv] at h2
    rw [hev, hmv, Option.map_some', Option.map_some']
    by_cases hne : ev.pyStr = mv.pyStr
    · rw [hne]
    · rw [if_pos hne] at h2
      exact Option.noConfusion h2
  · intro h c hc
    obtain ⟨⟨ev, hev⟩, mv, hmv⟩ := hsome c hc
    have h2 := h c hc
    rw [hev, hmv, Option.map_some', Option.map_some'] at h2
    injection h2 with h2
    simp only [hev, hmv]
    rw [if_neg (fun hne => hne h2)]

/-! Claim theorems. -/

lemma filterAgency_ids_nodup {master : Table} {ag : String}
    (hndM : master.ids.Nodup) : (filterAgency master ag).ids.Nodup :=
  List.Nodup.sublist ((List.filter_sublist _).map Prod.fst) hndM

lemma filterAgency_lookup_master {master : Table} {ag : String} {i : Nat}
    {ac : List Value} (hndM : master.ids.Nodup)
    (h : (i, ac) ∈ (filterAgency master ag).rows) :
    lookupRow master.rows i = some ac :=
  lookupRow_of_mem_nodup hndM (mem_filterAgency_iff.mp h).1

lemma c1_conditions {ag : String} {master edited : Table}
    (hmw : master.wf = true) (hew : edited.wf = true)
    (hndM : master.ids.Nodup)
    (hcols : edited.cols = master.cols)
    (hids : (filterAgency master ag).ids = edited.ids)
    (hact : "Activity" ∈ master.cols)
    (hsub : ∀ c ∈ editableFields, c ∈ master.cols) :
    ∀ p ∈ edited.rows, ∃ orig, lookupRow master.rows p.1 = some orig
      ∧ (∃ a, getVal master.cols orig "Activity" = some a)
      ∧ (∀ c ∈ editableFields,
          (∃ v, getVal edited.cols p.2 c = some v)
          ∧ (∃ v, getVal master.cols orig c = some v)) := by
  intro p hp
  have hpid : p.1 ∈ (filterAgency master ag).ids := by
    rw [hids]
    exact List.mem_map.mpr ⟨p, hp, rfl⟩
  obtain ⟨ac, _, hacmem⟩ := lookupRow_isSome_of_mem_ids hpid
  have hmmem : (p.1, ac) ∈ master.rows := (mem_filterAgency_iff.mp hacmem).1
  have hlm : lookupRow master.rows p.1 = some ac := lookupRow_of_mem_nodup hndM hmmem
  have haclen : ac.length = master.cols.length := wf_length hmw hmmem
  have hplen : p.2.length = edited.cols.length := wf_length hew hp
  refine ⟨ac, hlm, getVal_isSome hact (le_of_eq haclen.symm), fun c hc => ?_⟩
  exact ⟨getVal_isSome (hcols ▸ hsub c hc) (le_of_eq hplen.symm),
    getVal_isSome (hsub c hc) (le_of_eq haclen.symm)⟩

/-- C1 (amended): a row of the stakeholder table produces a change entry iff
it differs from its baseline row in at least one cell under Python raw
equality AND at least one editable field differs under string equality of
the display representations.  (The claim as frozen omits the raw-inequality
conjunct; `c1_counterexample` shows the code requires it.)  A difference
confined to non-editable fields is never reported, since the right-hand
side then fails. -/
theorem c1_change_entry_iff
    (ag : String) (master edited : Table)
    (hmw : master.wf = true) (hew : edited.wf = true)
    (hndM : master.ids.Nodup)
    (hcols : edited.cols = master.cols)
    (hids : (filterAgency master ag).ids = edited.ids)
    (hact : "Activity" ∈ master.cols)
    (hsub : ∀ c ∈ editableFields, c ∈ master.cols)
    (i : Nat) (eCells mCells : List Value)
    (hmem : (i, eCells) ∈ edited.rows)
    (hm : lookupRow master.rows i = some mCells) :
    ∃ B, computeBatch master (filterAgency master ag) edited = Except.ok B
      ∧ ((∃ act ds, (i, act, ds) ∈ B) ↔
          (rowNe eCells mCells = true ∧ ∃ c ∈ editableFields,
            (getVal edited.cols eCells c).map Value.pyStr
              ≠ (getVal master.cols mCells c).map Value.pyStr)) := by
  have hids' : (filterAgency master ag).rows.map Prod.fst = edited.rows.map Prod.fst := hids
  have hndE : (edited.rows.map Prod.fst).Nodup := by
    rw [← hids']
    exact filterAgency_ids_nodup hndM
  have hAeq : ∀ ac, (i, ac) ∈ (filterAgency master ag).rows → ac = mCells := by
    intro ac hac
    have h2 := filterAgency_lookup_master hndM hac
    rw [hm] at h2
    exact (Option.some.inj h2).symm
  have hsome : ∀ c ∈ editableFields,
      (∃ v, getVal edited.cols eCells c = some v)
      ∧ (∃ v, getVal master.cols mCells c = some v) := by
    obtain ⟨orig, ho, _, hs⟩ := c1_conditions hmw hew hndM hcols hids hact hsub
      (i, eCells) hmem
    rw [hm] at ho
    injection ho with ho
    exact fun c hc => ho ▸ hs c hc
  obtain ⟨a, ha⟩ := getVal_isSome hact
    (le_of_eq (wf_length hmw (lookupRow_mem hm)).symm)
  by_cases hq : dfEquals edited (filterAgency master ag) = true
  · refine ⟨[], computeBatch_of_equals hq, ?_⟩
    obtain ⟨ac, hpair⟩ := zip_pair_of_mem hids' hmem
    have hacm : ac = mCells := hAeq ac (List.of_mem_zip hpair).2
    have hrnf : rowNe eCells ac = false := (dfEquals_true_facts hq).2.2 _ hpair
    constructor
    · rintro ⟨act, ds, hin⟩
      simp at hin
    · rintro ⟨hrn, _⟩
      rw [hacm] at hrnf
      rw [hrnf] at hrn
      exact Bool.noConfusion hrn
  · have hq' : dfEquals edited (filterAgency master ag) = false := by
      rw [← Bool.not_eq_true]
      exact hq
    refine ⟨_, computeBatch_of_ne hq' hcols.symm hids
      (c1_conditions hmw hew hndM hcols hids hact hsub), ?_⟩
    constructor
    · rintro ⟨act, ds, hin⟩
      obtain ⟨p, hp, hpe⟩ := List.mem_filterMap.mp hin
      have hpi : p.1 = i := entryOf_fst hpe
      obtain ⟨hpE, aq, hpair, hrn⟩ := ch_mem_edited hp
      have hmem' : (p.1, eCells) ∈ edited.rows := by
        rw [hpi]
        exact hmem
      have hp2 : p.2 = eCells := snd_unique_of_nodup hndE
        (by rw [show (p.1, p.2) = p from rfl]; exact hpE) hmem'
      have hpeq : p = (i, eCells) := by
        rw [← hpi, ← hp2]
      subst hpeq
      have haq1 : aq.1 = i := zip_snd_fst_eq hids' _ hpair
      have haqm : aq.2 = mCells := by
        apply hAeq
        have h3 := (List.of_mem_zip hpair).2
        rwa [show aq = (i, aq.2) from by rw [← haq1]] at h3
      refine ⟨by rw [← haqm]; exact hrn, ?_⟩
      rw [entryOf] at hpe
      simp only [hm, ha] at hpe
      by_cases hemp : (detailsPure edited.cols eCells master.cols mCells).isEmpty = true
      · rw [if_pos hemp] at hpe
        exact Option.noConfusion hpe
      · by_contra hall
        push_neg at hall
        exact hemp ((detailsPure_isEmpty_iff hsome).mpr hall)
    · rintro ⟨hrn, c, hc, hdiff⟩
      obtain ⟨ac, hpair⟩ := zip_pair_of_mem hids' hmem
      have hacm : ac = mCells := hAeq ac (List.of_mem_zip hpair).2
      have hrn2 : rowNe ((i, eCells), (i, ac)).1.2 ((i, eCells), (i, ac)).2.2 = true := by
        rw [show ((i, eCells), (i, ac)).1.2 = eCells from rfl,
          show ((i, eCells), (i, ac)).2.2 = ac from rfl, hacm]
        exact hrn
      have hch := ch_mem_of_pair hpair hrn2
      have hemp : (detailsPure edited.cols eCells master.cols mCells).isEmpty = false := by
        rw [← Bool.not_eq_true]
        intro hempty
        exact hdiff ((detailsPure_isEmpty_iff hsome).mp hempty c hc)
      exact ⟨a, detailsPure edited.cols eCells master.cols mCells,
        List.mem_filterMap.mpr ⟨(i, eCells), hch, entryOf_some hm ha hemp⟩⟩

/-- C1 counterexample: with baseline `Budget Spent` the integer 100 and the
edited cell the float 100.0, the editable field differs under string
equality (`"100"` vs `"100.0"`), yet change detection produces no entry:
the two cells are equal under the raw Python comparison, so the row never
reaches `changed_rows`.  This refutes the frozen claim, whose biconditional
demands an entry here. -/
theorem c1_counterexample :
    computeBatch master1 (filterAgency master1 "WHO") edited1f = .ok []
    ∧ "Budget Spent" ∈ editableFields
    ∧ (getVal edited1f.cols rowA1f "Budget Spent").map Value.pyStr
        ≠ (getVal master1.cols rowA1 "Budget Spent").map Value.pyStr :=
  ⟨rfl, by decide, by decide⟩

/-- Witness for `c1_change_entry_iff` at the concrete one-row WHO tables
with the budget edited from 100 to 250. -/
theorem c1_change_entry_iff_witness :
    master1.wf = true ∧ edited1.wf = true ∧ master1.ids.Nodup
    ∧ (∃ B, computeBatch master1 (filterAgency master1 "WHO") edited1 = Except.ok B
        ∧ ((∃ act ds, (0, act, ds) ∈ B) ↔
            (rowNe rowA1b rowA1 = true ∧ ∃ c ∈ editableFields,
              (getVal edited1.cols rowA1b c).map Value.pyStr
                ≠ (getVal master1.cols rowA1 c).map Value.pyStr))) :=
  ⟨by decide, by decide, by decide,
   c1_change_entry_iff "WHO" master1 edited1 (by decide) (by decide) (by decide)
     rfl (by decide) (by decide) (by decide) 0 rowA1b rowA1 (by decide) (by decide)⟩

/-- C7 counterexample: in the one-row table for activity `A2`, exactly one
editable field (`Budget Spent`) differs under string equality (`"7"` vs
`"7.0"` after the cell became a float), and no other field of any row
differs; the frozen claim demands exactly one change entry, but the
computation returns none (the cells are equal under the raw comparison). -/
theorem c7_counterexample :
    (editableFields.filter (fun c =>
        (getVal stdCols rowA2f c).map Value.pyStr
          != (getVal stdCols rowA2 c).map Value.pyStr)) = ["Budget Spent"]
    ∧ master3.rows.length = 1
    ∧ computeBatch master3 (filterAgency master3 "WHO") edited3f = .ok [] :=
  ⟨by decide, rfl, rfl⟩

/-- C7 (amended): if exactly one editable field of exactly one row differs
under string equality, and that cell also differs under the raw Python
comparison, then change detection returns exactly one entry, for that row,
containing exactly that field with its before/after display strings. -/
theorem c7_single_change_entry
    (ag : String) (master edited : Table)
    (hmw : master.wf = true) (hew : edited.wf = true)
    (hndM : master.ids.Nodup)
    (hcols : edited.cols = master.cols)
    (hids : (filterAgency master ag).ids = edited.ids)
    (hact : "Activity" ∈ master.cols)
    (hsub : ∀ c ∈ editableFields, c ∈ master.cols)
    (i : Nat) (f : String) (eCells mCells : List Value) (ev mv act : Value)
    (hmem : (i, eCells) ∈ edited.rows)
    (hm : lookupRow master.rows i = some mCells)
    (hf : f ∈ editableFields)
    (hev : getVal edited.cols eCells f = some ev)
    (hmv : getVal master.cols mCells f = some mv)
    (hstr : ev.pyStr ≠ mv.pyStr)
    (hraw : ev.pyEq mv = false)
    (ha : getVal master.cols mCells "Activity" = some act)
    (huniq : ∀ (j : Nat) (ec mc : List Value) (c : String), (j, ec) ∈ edited.rows →
        lookupRow master.rows j = some mc → c ∈ editableFields →
        (getVal edited.cols ec c).map Value.pyStr
          ≠ (getVal master.cols mc c).map Value.pyStr →
        j = i ∧ c = f) :
    computeBatch master (filterAgency master ag) edited
      = .ok [(i, act, [(f, fromToDescr mv.pyStr ev.pyStr)])] := by
  have hids' : (filterAgency master ag).rows.map Prod.fst = edited.rows.map Prod.fst := hids
  have hndE : (edited.rows.map Prod.fst).Nodup := by
    rw [← hids']
    exact filterAgency_ids_nodup hndM
  have hndErows : edited.rows.Nodup := List.Nodup.of_map _ hndE
  have hlenE : edited.rows.length ≤ (filterAgency master ag).rows.length :=
    le_of_eq (by rw [← List.length_map edited.rows Prod.fst,
      ← List.length_map (filterAgency master ag).rows Prod.fst, hids'])
  have hzipfst : (edited.rows.zip (filterAgency master ag).rows).map Prod.fst
      = edited.rows := List.map_fst_zip _ _ hlenE
  have hzipnd : (edited.rows.zip (filterAgency master ag).rows).Nodup :=
    List.Nodup.of_map Prod.fst (by rw [hzipfst]; exact hndErows)
  have hAeq : ∀ ac, (i, ac) ∈ (filterAgency master ag).rows → ac = mCells := by
    intro ac hac
    have h2 := filterAgency_lookup_master hndM hac
    rw [hm] at h2
    exact (Option.some.inj h2).symm
  have hcond := c1_conditions hmw hew hndM hcols hids hact hsub
  obtain ⟨ac, hpair⟩ := zip_pair_of_mem hids' hmem
  have hacm : ac = mCells := hAeq ac (List.of_mem_zip hpair).2
  have hevm : getVal master.cols eCells f = some ev := by
    rw [← hcols]
    exact hev
  have hrnx : rowNe eCells mCells = true := rowNe_true_of_getVal hevm hmv hraw
  have hq : dfEquals edited (filterAgency master ag) = false := by
    apply dfEquals_false_of_rowNe hpair
    rw [show ((i, eCells), (i, ac)).1.2 = eCells from rfl,
      show ((i, eCells), (i, ac)).2.2 = ac from rfl, hacm]
    exact hrnx
  have hdp : detailsPure edited.cols eCells master.cols mCells
      = [(f, fromToDescr mv.pyStr ev.pyStr)] := by
    apply filterMap_eq_singleton (by decide) hf
    · simp only [hev, hmv]
      rw [if_pos hstr]
    · intro c hc hcf
      obtain ⟨orig, ho, _, hs⟩ := hcond (i, eCells) hmem
      rw [hm] at ho
      injection ho with ho
      obtain ⟨⟨ev2, hev2⟩, mv2, hmv2⟩ := ho ▸ hs c hc
      simp only [hev2, hmv2]
      by_cases heq : ev2.pyStr = mv2.pyStr
      · rw [if_neg (fun hne => hne heq)]
      · exfalso
        have hdiff : (getVal edited.cols eCells c).map Value.pyStr
            ≠ (getVal master.cols mCells c).map Value.pyStr := by
          rw [hev2, hmv2, Option.map_some', Option.map_some']
          intro hcontra
          exact heq (Option.some.inj hcontra)
        exact hcf (huniq i eCells mCells c hmem hm hc hdiff).2
  have hemp : (detailsPure edited.cols eCells master.cols mCells).isEmpty = false := by
    rw [hdp]
    rfl
  rw [computeBatch_of_ne hq hcols.symm hids hcond, List.filterMap_filterMap]
  refine congrArg Except.ok ?_
  apply filterMap_eq_singleton hzipnd hpair
  · have hrnp : rowNe ((i, eCells), (i, ac)).1.2 ((i, eCells), (i, ac)).2.2 = true := by
      show rowNe eCells ac = true
      rw [hacm]
      exact hrnx
    rw [if_pos hrnp]
    show entryOf master.cols master.rows edited.cols (i, eCells)
      = some (i, act, [(f, fromToDescr mv.pyStr ev.pyStr)])
    rw [entryOf_some hm ha hemp, hdp]
  · rintro ⟨y1, y2⟩ hy hyx
    by_cases hrny : rowNe (y1, y2).1.2 (y1, y2).2.2 = true
    · rw [if_pos hrny]
      show entryOf master.cols master.rows edited.cols y1 = none
      have hyE : y1 ∈ edited.rows := (List.of_mem_zip hy).1
      obtain ⟨orig, ho, ⟨a2, ha2⟩, hs⟩ := hcond y1 hyE
      have hempy : (detailsPure edited.cols y1.2 master.cols orig).isEmpty = true := by
        rw [detailsPure_isEmpty_iff hs]
        intro c hc
        by_contra hne
        obtain ⟨hji, hcf⟩ := huniq y1.1 y1.2 orig c
          (by rw [show (y1.1, y1.2) = y1 from rfl]; exact hyE) ho hc hne
        exfalso
        apply hyx
        have hzipfstnd : ((edited.rows.zip
            (filterAgency master ag).rows).map Prod.fst).Nodup := by
          rw [hzipfst]
          exact hndErows
        apply eq_of_fst_eq_of_nodup hzipfstnd hy hpair
        show y1 = (i, eCells)
        have hy1eq : y1 = (i, y1.2) := by
          rw [← hji]
        have hmemy : (i, y1.2) ∈ edited.rows := hy1eq ▸ hyE
        have hy12 : y1.2 = eCells := snd_unique_of_nodup hndE hmemy hmem
        rw [hy1eq, hy12]
      exact entryOf_none ho ha2 hempy
    · rw [if_neg hrny]
      rfl

/-- Witness for `c7_single_change_entry` at the one-row WHO table with the
budget edited from the integer 100 to the integer 250. -/
theorem c7_single_change_entry_witness :
    (Value.vInt 250).pyStr ≠ (Value.vInt 100).pyStr
    ∧ (Value.vInt 250).pyEq (Value.vInt 100) = false
    ∧ computeBatch master1 (filterAgency master1 "WHO") edited1
        = .ok [(0, Value.vStr "A1",
            [("Budget Spent", fromToDescr (Value.vInt 100).pyStr (Value.vInt 250).pyStr)])] :=
  ⟨by decide, by decide,
   c7_single_change_entry "WHO" master1 edited1 (by decide) (by decide) (by decide)
     rfl (by decide) (by decide) (by decide)
     0 "Budget Spent" rowA1b rowA1 (Value.vInt 250) (Value.vInt 100) (Value.vStr "A1")
     (by decide) (by decide) (by decide) (by decide) (by decide) (by decide)
     (by decide) (by decide)
     (by
      rintro j ec mc c hj hmc hc hne
      have hj2 : (j, ec) = (0, rowA1b) := List.mem_singleton.mp hj
      have hj0 : j = 0 := congrArg Prod.fst hj2
      have hec : ec = rowA1b := congrArg Prod.snd hj2
      subst hj0
      have hmc2 : mc = rowA1 := by
        have h0 : lookupRow master1.rows 0 = some rowA1 := rfl
        rw [h0] at hmc
        exact (Option.some.inj hmc).symm
      subst hec
      subst hmc2
      refine ⟨rfl, ?_⟩
      rcases (show c = "End Date" ∨ c = "Budget Spent"
          ∨ c = "Progress / Achievement to Date" from by
        simpa [editableFields] using hc) with rfl | rfl | rfl
      · exact absurd (by decide) hne
      · rfl
      · exact absurd (by decide) hne)⟩

/-- C2 fails on the code (a slip at lines 247-249): after a save of a budget
edit, the stored master row is byte-identical to the edited row — the loop
at lines 248-249 copies every column of the edited row, so the fresh
`Last Updated` timestamp written at line 247 is immediately overwritten by
the old value from the edited row, and the field ends up unchanged instead
of holding the timestamp taken during the save (`tickClock 1 = "1"`). -/
theorem c2_last_updated_clobbered :
    (stakeholder_save tickClock store1 0 ana master1 edited1).store.master = some edited1
    ∧ getVal edited1.cols rowA1b "Last Updated" = some (Value.vStr "2024-01-01")
    ∧ tickClock 1 = "1"
    ∧ Value.vStr "2024-01-01" ≠ Value.vStr "1" :=
  ⟨rfl, rfl, rfl, by decide⟩

/-- C3: on first use (the `Audit_Log` worksheet absent), `log_edit` creates
the worksheet and appends the header row, but then raises
`UnboundLocalError` — `timestamp` was only assigned inside the `try` block
— so the entry itself is never appended and the exception escapes; the
claimed "first use therefore succeeds" is contradicted by the code. -/
theorem c3_first_use_crashes (time : Nat → String) (store : Store) (k : Nat)
    (n e a : String) (act : Value) (ch : List (String × String))
    (h : store.auditLog = none) :
    (log_edit time store k n e a act ch).err = some .nameError
    ∧ (log_edit time store k n e a act ch).store.auditLog = some [auditHeader]
    ∧ (log_edit time store k n e a act ch).store.master = store.master := by
  rw [log_edit_none h]
  exact ⟨rfl, rfl, rfl⟩

/-- Witness for `c3_first_use_crashes` on a store whose audit worksheet does
not exist. -/
theorem c3_first_use_crashes_witness :
    store1NoLog.auditLog = none
    ∧ ((log_edit tickClock store1NoLog 0 "Ana" "ana@who.int" "WHO" (Value.vStr "A1")
          [("Budget Spent", fromToDescr "100" "250")]).err = some .nameError
      ∧ (log_edit tickClock store1NoLog 0 "Ana" "ana@who.int" "WHO" (Value.vStr "A1")
          [("Budget Spent", fromToDescr "100" "250")]).store.auditLog = some [auditHeader]
      ∧ (log_edit tickClock store1NoLog 0 "Ana" "ana@who.int" "WHO" (Value.vStr "A1")
          [("Budget Spent", fromToDescr "100" "250")]).store.master = store1NoLog.master) :=
  ⟨rfl, c3_first_use_crashes tickClock store1NoLog 0 "Ana" "ana@who.int" "WHO"
    (Value.vStr "A1") [("Budget Spent", fromToDescr "100" "250")] rfl⟩

/-- C5: when the baseline and edited tables disagree on row identifiers or
on column sets, the change computation fails with the comparison error (the
name the spec gives is `ShapeMismatch`; concretely the `ValueError` pandas raises for
non-identically-labelled frames) instead of returning a result. -/
theorem c5_shape_mismatch (master agencyT edited : Table)
    (h : (∃ i : Nat, (i ∈ agencyT.ids ∧ i ∉ edited.ids)
            ∨ (i ∈ edited.ids ∧ i ∉ agencyT.ids))
       ∨ (∃ c : String, (c ∈ agencyT.cols ∧ c ∉ edited.cols)
            ∨ (c ∈ edited.cols ∧ c ∉ agencyT.cols))) :
    computeBatch master agencyT edited = .error .valueError := by
  have hne : ¬(agencyT.cols = edited.cols ∧ agencyT.ids = edited.ids) := by
    rintro ⟨hc, hi⟩
    rcases h with ⟨i, hx | hx⟩ | ⟨c, hx | hx⟩
    · exact hx.2 (by rw [← hi]; exact hx.1)
    · exact hx.2 (by rw [hi]; exact hx.1)
    · exact hx.2 (by rw [← hc]; exact hx.1)
    · exact hx.2 (by rw [hc]; exact hx.1)
  have hdfe : dfEquals edited agencyT = false := by
    rw [← Bool.not_eq_true]
    intro ht
    obtain ⟨hc, hi, _⟩ := dfEquals_true_facts ht
    exact hne ⟨hc.symm, hi.symm⟩
  have hguard : ¬((agencyT.cols == edited.cols && agencyT.ids == edited.ids) = true) := by
    intro hg
    rw [Bool.and_eq_true] at hg
    exact hne ⟨by simpa using hg.1, by simpa using hg.2⟩
  rw [computeBatch, if_neg (by simp [hdfe]), changedRows, if_neg hguard]

/-- Witness for `c5_shape_mismatch`: the edited table is missing row 1,
which is present in the agency baseline. -/
theorem c5_shape_mismatch_witness :
    (1 ∈ (filterAgency master2 "WHO").ids ∧ 1 ∉ edited1.ids)
    ∧ computeBatch master2 (filterAgency master2 "WHO") edited1 = .error .valueError :=
  ⟨⟨by decide, by decide⟩,
   c5_shape_mismatch master2 (filterAgency master2 "WHO") edited1
     (.inl ⟨1, .inl ⟨by decide, by decide⟩⟩)⟩

/-- C4 counterexample: when persisting the master table fails, the audit
log HAS already been durably changed — the per-row `log_edit` calls run
before `update_gsheet_from_dataframe` — refuting "neither the master table
nor the audit log has been durably changed". -/
theorem c4_counterexample :
    (stakeholder_save tickClock store1Fail 0 ana master1 edited1).msg = .saveFailed
    ∧ (stakeholder_save tickClock store1Fail 0 ana master1 edited1).store.master
        = store1Fail.master
    ∧ (stakeholder_save tickClock store1Fail 0 ana master1 edited1).store.auditLog
        ≠ store1Fail.auditLog :=
  ⟨rfl, rfl, by decide⟩

/-- C4 (amended): if the master-table write fails before the sheet is
touched, the stored master is unchanged by the attempt, but the audit
entries of the batch have already been appended and remain. -/
theorem c4_audit_persists_on_failed_write
    (time : Nat → String) (store0 : Store) (k0 : Nat) (user : User)
    (master edited : Table) (L : List (List String))
    (hfail : store0.masterWriteFail = some .atOpen)
    (hlog : store0.auditLog = some L) :
    (stakeholder_save time store0 k0 user master edited).store.master = store0.master
    ∧ ∃ es, (stakeholder_save time store0 k0 user master edited).store.auditLog
        = some (L ++ es) := by
  rw [stakeholder_save]
  split
  · exact ⟨rfl, [], by rw [List.append_nil]; exact hlog⟩
  · split
    · exact ⟨rfl, [], by rw [List.append_nil]; exact hlog⟩
    next ch heq =>
      split
      next e st heq2 =>
        have h1 := (processRows_store time user edited.cols ch ⟨store0, k0, master⟩).1
        obtain ⟨es, h2, _⟩ :=
          processRows_audit time user edited.cols ch ⟨store0, k0, master⟩ L hlog
        rw [heq2] at h1 h2
        exact ⟨h1, es, h2⟩
      next st heq2 =>
        have h1 := (processRows_store time user edited.cols ch ⟨store0, k0, master⟩).1
        have h3 := (processRows_store time user edited.cols ch ⟨store0, k0, master⟩).2
        obtain ⟨es, h2, _⟩ :=
          processRows_audit time user edited.cols ch ⟨store0, k0, master⟩ L hlog
        rw [heq2] at h1 h2 h3
        have hf2 : st.store.masterWriteFail = some FailPoint.atOpen := by
          rw [show st.store.masterWriteFail
            = (loopStateOf (Except.ok st)).store.masterWriteFail from rfl, h3, hfail]
        rw [update_gsheet_from_dataframe, hf2]
        exact ⟨h1, es, h2⟩

/-- Witness for `c4_audit_persists_on_failed_write` on a store whose next
master write fails at open time. -/
theorem c4_audit_persists_on_failed_write_witness :
    store1Fail.masterWriteFail = some .atOpen
    ∧ ((stakeholder_save tickClock store1Fail 0 ana master1 edited1).store.master
          = store1Fail.master
      ∧ ∃ es, (stakeholder_save tickClock store1Fail 0 ana master1 edited1).store.auditLog
          = some ([auditHeader] ++ es)) :=
  ⟨rfl, c4_audit_persists_on_failed_write tickClock store1Fail 0 ana master1 edited1
    [auditHeader] rfl rfl⟩

/-- C6 counterexample: a save that changes two rows appends two audit
entries whose Timestamp fields are the clock readings of two different
`datetime.now()` calls ("0" and "2" under the ticking clock) — the records
of one save batch do not carry one shared timestamp. -/
theorem c6_counterexample :
    (stakeholder_save tickClock store2 0 ana master2 edited2).store.auditLog
      = some [auditHeader,
          ["0", "Ana", "ana@who.int", "WHO", "A1",
           "\x7b\"Budget Spent\": \"from \x27100\x27 to \x27250\x27\"\x7d"],
          ["2", "Ana", "ana@who.int", "WHO", "A2",
           "\x7b\"Budget Spent\": \"from \x277\x27 to \x278\x27\"\x7d"]]
    ∧ ("0" : String) ≠ "2" :=
  ⟨rfl, by decide⟩

/-- C6 (amended): every audit entry of a save carries the wall-clock
reading captured at the moment that entry is logged (one fresh capture per
changed row, with a second capture for the `Last Updated` value of the row);
entries of one batch all carry the same timestamp only when the clock
renders identically across the whole save. -/
theorem c6_per_entry_timestamps
    (time : Nat → String) (store0 : Store) (k0 : Nat) (user : User)
    (master edited : Table) (L : List (List String))
    (hlog : store0.auditLog = some L) :
    ∃ es, (stakeholder_save time store0 k0 user master edited).store.auditLog
        = some (L ++ es)
      ∧ (∀ r ∈ es, ∃ k a ds,
          r = [time k, user.name, user.email, user.agency, a, jsonDumps ds])
      ∧ ((∀ k1 k2 : Nat, time k1 = time k2) →
          ∀ r ∈ es, r.head? = some (time 0)) := by
  have hshape : ∀ (es : List (List String)),
      (∀ r ∈ es, ∃ k a ds,
        r = [time k, user.name, user.email, user.agency, a, jsonDumps ds]) →
      (∀ k1 k2 : Nat, time k1 = time k2) → ∀ r ∈ es, r.head? = some (time 0) := by
    intro es hsh hconst r hr
    obtain ⟨k, a, ds, hr2⟩ := hsh r hr
    rw [hr2, show time k = time 0 from hconst k 0]
    rfl
  rw [stakeholder_save]
  split
  · exact ⟨[], by rw [List.append_nil]; exact hlog, by simp, fun _ r hr => by simp at hr⟩
  · split
    · exact ⟨[], by rw [List.append_nil]; exact hlog, by simp, fun _ r hr => by simp at hr⟩
    next ch heq =>
      split
      next e st heq2 =>
        obtain ⟨es, h2, hsh⟩ :=
          processRows_audit time user edited.cols ch ⟨store0, k0, master⟩ L hlog
        rw [heq2] at h2
        exact ⟨es, h2, hsh, hshape es hsh⟩
      next st heq2 =>
        obtain ⟨es, h2, hsh⟩ :=
          processRows_audit time user edited.cols ch ⟨store0, k0, master⟩ L hlog
        rw [heq2] at h2
        refine ⟨es, ?_, hsh, hshape es hsh⟩
        rw [update_gsheet_from_dataframe]
        rcases st.store.masterWriteFail with _ | fp
        · exact h2
        · rcases fp
          · exact h2
          · exact h2

/-- Witness for `c6_per_entry_timestamps` on the one-row save. -/
theorem c6_per_entry_timestamps_witness :
    store1.auditLog = some [auditHeader]
    ∧ ∃ es, (stakeholder_save tickClock store1 0 ana master1 edited1).store.auditLog
        = some ([auditHeader] ++ es)
      ∧ (∀ r ∈ es, ∃ k a ds,
          r = [tickClock k, ana.name, ana.email, ana.agency, a, jsonDumps ds])
      ∧ ((∀ k1 k2 : Nat, tickClock k1 = tickClock k2) →
          ∀ r ∈ es, r.head? = some (tickClock 0)) :=
  ⟨rfl, c6_per_entry_timestamps tickClock store1 0 ana master1 edited1 [auditHeader] rfl⟩

/-- C9: the save writes a row back only under the identity it was read
under — after a save, every row of the in-memory master either still holds
its original cells, or holds the update built from its own original cells
and the edited row carrying the same identifier; no row ever receives
edited values belonging to another row. -/
theorem c9_row_identity
    (time : Nat → String) (store0 : Store) (k0 : Nat) (user : User)
    (master edited : Table) (j : Nat)
    (hndE : edited.ids.Nodup) :
    lookupRow (stakeholder_save time store0 k0 user master edited).finalMaster.rows j
      = lookupRow master.rows j
    ∨ ∃ ec oc ts, (j, ec) ∈ edited.rows ∧ lookupRow master.rows j = some oc ∧
        lookupRow (stakeholder_save time store0 k0 user master edited).finalMaster.rows j
          = some (updateRow master.cols oc ec ts) := by
  rw [stakeholder_save]
  split
  · left
    rfl
  · split
    · left
      rfl
    next ch heq =>
      have hsubl : List.Sublist ch edited.rows := by
        rw [changedRows] at heq
        by_cases hg : (((filterAgency master user.agency).cols == edited.cols
            && (filterAgency master user.agency).ids == edited.ids) = true)
        · rw [if_pos hg] at heq
          injection heq with heq
          rw [Bool.and_eq_true] at hg
          have hidseq : (filterAgency master user.agency).ids = edited.ids := by
            simpa using hg.2
          have hlen : edited.rows.length
              ≤ (filterAgency master user.agency).rows.length := by
            have hc := congrArg List.length hidseq
            rw [Table.ids, Table.ids, List.length_map, List.length_map] at hc
            omega
          rw [← heq]
          exact zip_filterMap_fst_sublist _ hlen
        · rw [if_neg hg] at heq
          exact absurd heq (by simp)
      have hchnd : (ch.map Prod.fst).Nodup :=
        List.Nodup.sublist (hsubl.map Prod.fst) hndE
      split
      next e st heq2 =>
        have h := processRows_update time user edited.cols ch ⟨store0, k0, master⟩ j hchnd
        rw [heq2] at h
        rcases h with h | ⟨ec, oc, ts, hm2, h1, h2⟩
        · left
          exact h
        · right
          exact ⟨ec, oc, ts, hsubl.subset hm2, h1, h2⟩
      next st heq2 =>
        have h := processRows_update time user edited.cols ch ⟨store0, k0, master⟩ j hchnd
        rw [heq2] at h
        rcases h with h | ⟨ec, oc, ts, hm2, h1, h2⟩
        · left
          exact h
        · right
          exact ⟨ec, oc, ts, hsubl.subset hm2, h1, h2⟩

/-- Witness for `c9_row_identity` on the one-row save. -/
theorem c9_row_identity_witness :
    edited1.ids.Nodup
    ∧ (lookupRow (stakeholder_save tickClock store1 0 ana master1 edited1).finalMaster.rows 0
        = lookupRow master1.rows 0
      ∨ ∃ ec oc ts, (0, ec) ∈ edited1.rows ∧ lookupRow master1.rows 0 = some oc ∧
          lookupRow
            (stakeholder_save tickClock store1 0 ana master1 edited1).finalMaster.rows 0
            = some (updateRow master1.cols oc ec ts)) :=
  ⟨by decide, c9_row_identity tickClock store1 0 ana master1 edited1 0 (by decide)⟩

/-- C10 counterexample: the edited table differs from the baseline under
the raw comparison, yet the save does NOT rewrite the master table to the
store — the first-use audit append crashes with the unbound `timestamp`
before `update_gsheet_from_dataframe` is reached. -/
theorem c10_counterexample :
    dfEquals edited1 (filterAgency master1 ana.agency) = false
    ∧ (stakeholder_save tickClock store1NoLog 0 ana master1 edited1).wrote = none
    ∧ (stakeholder_save tickClock store1NoLog 0 ana master1 edited1).store.master
        = store1NoLog.master
    ∧ (stakeholder_save tickClock store1NoLog 0 ana master1 edited1).msg
        = .crashed .nameError :=
  ⟨rfl, rfl, rfl, rfl⟩

/-- C10 (amended): provided the audit-log worksheet exists, whenever the
edited table differs from the agency baseline under the raw cell-by-cell
comparison, the save hands the entire updated master table to the store
overwrite — also when zero change entries are produced — and every master
row whose `Agency` cell does not match the logged-in agency keeps exactly
its fetched cells in the written table. -/
theorem c10_full_table_overwrite
    (time : Nat → String) (store0 : Store) (k0 : Nat) (user : User)
    (master edited : Table) (L : List (List String))
    (hlog : store0.auditLog = some L)
    (hmw : master.wf = true) (hew : edited.wf = true)
    (hndM : master.ids.Nodup)
    (hcols : edited.cols = master.cols)
    (hids : (filterAgency master user.agency).ids = edited.ids)
    (hact : "Activity" ∈ master.cols)
    (hsub : ∀ c ∈ editableFields, c ∈ master.cols)
    (hne : dfEquals edited (filterAgency master user.agency) = false) :
    (stakeholder_save time store0 k0 user master edited).wrote
      = some (stakeholder_save time store0 k0 user master edited).finalMaster
    ∧ (store0.masterWriteFail = none →
        (stakeholder_save time store0 k0 user master edited).store.master
          = some (stakeholder_save time store0 k0 user master edited).finalMaster)
    ∧ ∀ j cs, (j, cs) ∈ master.rows →
        ((getVal master.cols cs "Agency").getD Value.vNone).pyEq
          (Value.vStr user.agency) = false →
        lookupRow (stakeholder_save time store0 k0 user master edited).finalMaster.rows j
          = some cs := by
  have hcolsA : (filterAgency master user.agency).cols = edited.cols := hcols.symm
  have hecols : ∀ c ∈ editableFields, c ∈ edited.cols := by
    intro c hc
    rw [hcols]
    exact hsub c hc
  have hchcond : ∀ p ∈ ((edited.rows.zip (filterAgency master user.agency).rows).filterMap
      (fun q => if rowNe q.1.2 q.2.2 then some q.1 else none)),
      p.1 ∈ (⟨store0, k0, master⟩ : LoopState).master.rows.map Prod.fst
      ∧ edited.cols.length ≤ p.2.length := by
    intro p hp
    have hpe : p ∈ edited.rows := (ch_mem_edited hp).1
    constructor
    · have hpid : p.1 ∈ (filterAgency master user.agency).ids := by
        rw [hids]
        exact List.mem_map.mpr ⟨p, hpe, rfl⟩
      obtain ⟨q, hq, hq2⟩ := List.mem_map.mp hpid
      exact List.mem_map.mpr ⟨q, (mem_filterAgency_iff.mp hq).1, hq2⟩
    · exact le_of_eq (wf_length hew hpe).symm
  rw [stakeholder_save]
  split
  next hdf => exact absurd hdf (by simp [hne])
  next hdf =>
    split
    next e heqc =>
      rw [changedRows_eq hcolsA hids] at heqc
      exact absurd heqc (by simp)
    next ch heqc =>
      rw [changedRows_eq hcolsA hids] at heqc
      injection heqc with heqc
      subst heqc
      split
      next e st heqp =>
        obtain ⟨st2, hst2⟩ := processRows_ok time user edited.cols _
          ⟨store0, k0, master⟩ L hlog hmw hact hsub hecols hchcond
        rw [hst2] at heqp
        exact absurd heqp (by simp)
      next st heqp =>
        refine ⟨rfl, fun hnone => ?_, fun j cs hmem2 hag => ?_⟩
        · have h3 := (processRows_store time user edited.cols
            ((edited.rows.zip (filterAgency master user.agency).rows).filterMap
              (fun q => if rowNe q.1.2 q.2.2 then some q.1 else none))
            ⟨store0, k0, master⟩).2
          rw [heqp] at h3
          have hf2 : st.store.masterWriteFail = none := by
            rw [show st.store.masterWriteFail
              = (loopStateOf (Except.ok st)).store.masterWriteFail from rfl, h3, hnone]
          rw [update_gsheet_from_dataframe, hf2]
        · have hjn : ∀ p ∈ ((edited.rows.zip (filterAgency master user.agency).rows).filterMap
              (fun q => if rowNe q.1.2 q.2.2 then some q.1 else none)), p.1 ≠ j := by
            intro p hp hpj
            have hpe : p ∈ edited.rows := (ch_mem_edited hp).1
            have hj2 : j ∈ (filterAgency master user.agency).ids := by
              rw [hids]
              exact List.mem_map.mpr ⟨p, hpe, hpj⟩
            obtain ⟨ac, _, hacmem⟩ := lookupRow_isSome_of_mem_ids hj2
            have hacM : (j, ac) ∈ master.rows := (mem_filterAgency_iff.mp hacmem).1
            have hpred := (mem_filterAgency_iff.mp hacmem).2
            rw [show ac = cs from snd_unique_of_nodup hndM hacM hmem2, hag] at hpred
            exact Bool.noConfusion hpred
          have hfr := processRows_frame time user edited.cols
            ((edited.rows.zip (filterAgency master user.agency).rows).filterMap
              (fun q => if rowNe q.1.2 q.2.2 then some q.1 else none))
            ⟨store0, k0, master⟩ j hjn
          rw [heqp] at hfr
          exact hfr.trans (lookupRow_of_mem_nodup hndM hmem2)

/-- Witness for `c10_full_table_overwrite` on the one-row WHO save against
a reliable store with an existing audit log. -/
theorem c10_full_table_overwrite_witness :
    store1.auditLog = some [auditHeader]
    ∧ dfEquals edited1 (filterAgency master1 ana.agency) = false
    ∧ ((stakeholder_save tickClock store1 0 ana master1 edited1).wrote
        = some (stakeholder_save tickClock store1 0 ana master1 edited1).finalMaster
      ∧ (store1.masterWriteFail = none →
          (stakeholder_save tickClock store1 0 ana master1 edited1).store.master
            = some (stakeholder_save tickClock store1 0 ana master1 edited1).finalMaster)
      ∧ ∀ j cs, (j, cs) ∈ master1.rows →
          ((getVal master1.cols cs "Agency").getD Value.vNone).pyEq
            (Value.vStr ana.agency) = false →
          lookupRow
            (stakeholder_save tickClock store1 0 ana master1 edited1).finalMaster.rows j
            = some cs) :=
  ⟨rfl, rfl, c10_full_table_overwrite tickClock store1 0 ana master1 edited1 [auditHeader]
    rfl (by decide) (by decide) (by decide) rfl (by decide) (by decide) (by decide) rfl⟩

lemma colIdx_append_left {cols ext : List String} {d : String} (hd : d ∈ cols) :
    colIdx (cols ++ ext) d = colIdx cols d := by
  induction cols with
  | nil => simp at hd
  | cons x xs ih =>
    rw [List.cons_append, colIdx, colIdx]
    by_cases hx : (x == d) = true
    · rw [if_pos hx, if_pos hx]
    · rcases List.mem_cons.mp hd with hd | hd
      · exact absurd (by simp [hd]) hx
      · rw [if_neg hx, if_neg hx, ih hd]

lemma colIdx_append_new {cols : List String} {d : String} (hd : d ∉ cols) :
    colIdx (cols ++ [d]) d = some cols.length := by
  induction cols with
  | nil =>
    rw [List.nil_append, colIdx]
    rw [if_pos (by simp)]
    rfl
  | cons x xs ih =>
    rw [List.cons_append, colIdx]
    have hx : ¬((x == d) = true) := by
      simp only [beq_iff_eq]
      intro hxd
      exact hd (List.mem_cons.mpr (.inl hxd.symm))
    rw [if_neg hx, ih (fun hds => hd (List.mem_cons.mpr (.inr hds)))]
    rfl

lemma getVal_append_left {cols ext : List String} {cells vs : List Value} {d : String}
    (hd : d ∈ cols) (hlen : cols.length ≤ cells.length) :
    getVal (cols ++ ext) (cells ++ vs) d = getVal cols cells d := by
  rcases hci : colIdx cols d with _ | i
  · rw [getVal, getVal, colIdx_append_left hd, hci]
    rfl
  · rw [getVal, getVal, colIdx_append_left hd, hci]
    show (cells ++ vs).get? i = cells.get? i
    exact List.get?_append (lt_of_lt_of_le (colIdx_lt_length hci) hlen)

lemma getVal_append_new {cols : List String} {cells : List Value} {d : String} {v : Value}
    (hd : d ∉ cols) (hlen : cells.length = cols.length) :
    getVal (cols ++ [d]) (cells ++ [v]) d = some v := by
  rw [getVal, colIdx_append_new hd]
  show (cells ++ [v]).get? cols.length = some v
  rw [← hlen]
  exact List.get?_concat_length cells v

lemma update_gsheet_none {store : Store} {df : Table}
    (h : store.masterWriteFail = none) :
    update_gsheet_from_dataframe store df = (true, { store with master := some df }) := by
  obtain ⟨m, a, f⟩ := store
  simp only at h
  subst h
  rfl

lemma addColumn_wf {t : Table} {c : String} {v : Value} (hwf : t.wf = true) :
    (addColumn t c v).wf = true := by
  rw [addColumn]
  split
  · exact hwf
  · rw [Table.wf, List.all_eq_true]
    intro q hq
    obtain ⟨p, hp, hpq⟩ := List.mem_map.mp hq
    rw [← hpq]
    simp only [List.length_append, List.length_cons, List.length_nil, beq_iff_eq]
    rw [wf_length hwf hp]

lemma addColumn_cols_mem {t : Table} {c : String} {v : Value} {d : String}
    (hd : d ∈ t.cols) : d ∈ (addColumn t c v).cols := by
  rw [addColumn]
  split
  · exact hd
  · exact List.mem_append_left _ hd

lemma addColumn_self_mem {t : Table} {c : String} {v : Value} :
    c ∈ (addColumn t c v).cols := by
  rw [addColumn]
  split
  next h => simpa using h
  next h => exact List.mem_append_right _ (List.mem_singleton.mpr rfl)

lemma addColumn_cols_iff {t : Table} {c : String} {v : Value} {d : String}
    (hdc : d ≠ c) : d ∈ (addColumn t c v).cols ↔ d ∈ t.cols := by
  rw [addColumn]
  split
  · exact Iff.rfl
  · rw [List.mem_append, List.mem_singleton]
    exact ⟨fun h => h.resolve_right hdc, fun h => .inl h⟩

lemma addColumn_getVal_new {t : Table} {c : String} {v : Value}
    (hwf : t.wf = true) (hc : c ∉ t.cols) :
    ∀ q ∈ (addColumn t c v).rows, getVal (addColumn t c v).cols q.2 c = some v := by
  intro q hq
  have hcont : ¬((t.cols.contains c) = true) := by simpa using hc
  rw [addColumn, if_neg hcont] at hq ⊢
  obtain ⟨p, hp, hpq⟩ := List.mem_map.mp hq
  rw [← hpq]
  show getVal (t.cols ++ [c]) (p.2 ++ [v]) c = some v
  exact getVal_append_new hc (wf_length hwf hp)

lemma addColumn_getVal_const {t : Table} {c : String} {v : Value} {d : String} {w : Value}
    (hwf : t.wf = true) (hd : d ∈ t.cols)
    (hall : ∀ p ∈ t.rows, getVal t.cols p.2 d = some w) :
    ∀ q ∈ (addColumn t c v).rows, getVal (addColumn t c v).cols q.2 d = some w := by
  intro q hq
  rw [addColumn] at hq ⊢
  by_cases hcont : (t.cols.contains c) = true
  · rw [if_pos hcont] at hq ⊢
    exact hall q hq
  · rw [if_neg hcont] at hq ⊢
    obtain ⟨p, hp, hpq⟩ := List.mem_map.mp hq
    rw [← hpq]
    show getVal (t.cols ++ [c]) (p.2 ++ [v]) d = some w
    rw [getVal_append_left hd (le_of_eq (wf_length hwf hp).symm)]
    exact hall p hp

/-- C8: the CSV import rejects a file missing any required column without
touching the store, and otherwise fills each absent optional column with
its empty/zero default and replaces the stored master table with the
uploaded table in full. -/
theorem c8_csv_import (store : Store) (csv : Table)
    (hnf : store.masterWriteFail = none) (hwf : csv.wf = true) :
    (requiredCols.all (fun c => csv.cols.contains c) = false →
        admin_import store csv = (store, .validationError))
    ∧ (requiredCols.all (fun c => csv.cols.contains c) = true →
        (admin_import store csv).1.master = some (withDefaults csv)
        ∧ (admin_import store csv).2 = .success
        ∧ ∀ p ∈ (withDefaults csv).rows,
            ("End Date" ∉ csv.cols →
              getVal (withDefaults csv).cols p.2 "End Date" = some Value.vNone)
          ∧ ("Budget Spent" ∉ csv.cols →
              getVal (withDefaults csv).cols p.2 "Budget Spent" = some (Value.vInt 0))
          ∧ ("Progress / Achievement to Date" ∉ csv.cols →
              getVal (withDefaults csv).cols p.2 "Progress / Achievement to Date"
                = some (Value.vStr ""))
          ∧ ("Last Updated" ∉ csv.cols →
              getVal (withDefaults csv).cols p.2 "Last Updated" = some Value.vNone)) := by
  constructor
  · intro hreq
    rw [admin_import, if_neg (by rw [hreq]; exact Bool.false_ne_true)]
  · intro hreq
    refine ⟨?_, ?_, ?_⟩
    · rw [admin_import, if_pos hreq]
      show (update_gsheet_from_dataframe store (withDefaults csv)).2.master
        = some (withDefaults csv)
      rw [update_gsheet_none hnf]
    · rw [admin_import, if_pos hreq]
      show (if (update_gsheet_from_dataframe store (withDefaults csv)).1 = true
        then ImportMsg.success else ImportMsg.overwriteFailed) = ImportMsg.success
      rw [update_gsheet_none hnf]
      rfl
    · intro p hp
      have hwf1 : (addColumn csv "End Date" Value.vNone).wf = true := addColumn_wf hwf
      have hwf2 : (addColumn (addColumn csv "End Date" Value.vNone)
          "Budget Spent" (Value.vInt 0)).wf = true := addColumn_wf hwf1
      have hwf3 : (addColumn (addColumn (addColumn csv "End Date" Value.vNone)
          "Budget Spent" (Value.vInt 0))
          "Progress / Achievement to Date" (Value.vStr "")).wf = true := addColumn_wf hwf2
      refine ⟨fun habs => ?_, fun habs => ?_, fun habs => ?_, fun habs => ?_⟩
      · have h1 := addColumn_getVal_new (c := "End Date") (v := Value.vNone) hwf habs
        have m1 : "End Date" ∈ (addColumn csv "End Date" Value.vNone).cols :=
          addColumn_self_mem
        have h2 := addColumn_getVal_const (c := "Budget Spent") (v := Value.vInt 0)
          hwf1 m1 h1
        have m2 := addColumn_cols_mem (c := "Budget Spent") (v := Value.vInt 0) m1
        have h3 := addColumn_getVal_const
          (c := "Progress / Achievement to Date") (v := Value.vStr "") hwf2 m2 h2
        have m3 := addColumn_cols_mem
          (c := "Progress / Achievement to Date") (v := Value.vStr "") m2
        have h4 := addColumn_getVal_const (c := "Last Updated") (v := Value.vNone)
          hwf3 m3 h3
        exact h4 p hp
      · have habs1 : "Budget Spent" ∉ (addColumn csv "End Date" Value.vNone).cols :=
          fun hmem => habs ((addColumn_cols_iff (by decide)).mp hmem)
        have h1 := addColumn_getVal_new (c := "Budget Spent") (v := Value.vInt 0)
          hwf1 habs1
        have m1 : "Budget Spent" ∈ (addColumn (addColumn csv "End Date" Value.vNone)
            "Budget Spent" (Value.vInt 0)).cols := addColumn_self_mem
        have h2 := addColumn_getVal_const
          (c := "Progress / Achievement to Date") (v := Value.vStr "") hwf2 m1 h1
        have m2 := addColumn_cols_mem
          (c := "Progress / Achievement to Date") (v := Value.vStr "") m1
        have h3 := addColumn_getVal_const (c := "Last Updated") (v := Value.vNone)
          hwf3 m2 h2
        exact h3 p hp
      · have habs1 : "Progress / Achievement to Date"
            ∉ (addColumn csv "End Date" Value.vNone).cols :=
          fun hmem => habs ((addColumn_cols_iff (by decide)).mp hmem)
        have habs2 : "Progress / Achievement to Date"
            ∉ (addColumn (addColumn csv "End Date" Value.vNone)
                "Budget Spent" (Value.vInt 0)).cols :=
          fun hmem => habs1 ((addColumn_cols_iff (by decide)).mp hmem)
        have h1 := addColumn_getVal_new
          (c := "Progress / Achievement to Date") (v := Value.vStr "") hwf2 habs2
        have m1 : "Progress / Achievement to Date"
            ∈ (addColumn (addColumn (addColumn csv "End Date" Value.vNone)
                "Budget Spent" (Value.vInt 0))
                "Progress / Achievement to Date" (Value.vStr "")).cols :=
          addColumn_self_mem
        have h2 := addColumn_getVal_const (c := "Last Updated") (v := Value.vNone)
          hwf3 m1 h1
        exact h2 p hp
      · have habs1 : "Last Updated" ∉ (addColumn csv "End Date" Value.vNone).cols :=
          fun hmem => habs ((addColumn_cols_iff (by decide)).mp hmem)
        have habs2 : "Last Updated" ∉ (addColumn (addColumn csv "End Date" Value.vNone)
            "Budget Spent" (Value.vInt 0)).cols :=
          fun hmem => habs1 ((addColumn_cols_iff (by decide)).mp hmem)
        have habs3 : "Last Updated" ∉ (addColumn (addColumn (addColumn csv
            "End Date" Value.vNone) "Budget Spent" (Value.vInt 0))
            "Progress / Achievement to Date" (Value.vStr "")).cols :=
          fun hmem => habs2 ((addColumn_cols_iff (by decide)).mp hmem)
        have h1 := addColumn_getVal_new (c := "Last Updated") (v := Value.vNone)
          hwf3 habs3
        exact h1 p hp

/-- Witness for `c8_csv_import` on a minimal CSV holding only the required
columns, against a reliable store. -/
theorem c8_csv_import_witness :
    store1.masterWriteFail = none ∧ csvMinimal.wf = true
    ∧ ((requiredCols.all (fun c => csvMinimal.cols.contains c) = false →
          admin_import store1 csvMinimal = (store1, .validationError))
      ∧ (requiredCols.all (fun c => csvMinimal.cols.contains c) = true →
          (admin_import store1 csvMinimal).1.master = some (withDefaults csvMinimal)
          ∧ (admin_import store1 csvMinimal).2 = .success
          ∧ ∀ p ∈ (withDefaults csvMinimal).rows,
              ("End Date" ∉ csvMinimal.cols →
                getVal (withDefaults csvMinimal).cols p.2 "End Date" = some Value.vNone)
            ∧ ("Budget Spent" ∉ csvMinimal.cols →
                getVal (withDefaults csvMinimal).cols p.2 "Budget Spent"
                  = some (Value.vInt 0))
            ∧ ("Progress / Achievement to Date" ∉ csvMinimal.cols →
                getVal (withDefaults csvMinimal).cols p.2
                  "Progress / Achievement to Date" = some (Value.vStr ""))
            ∧ ("Last Updated" ∉ csvMinimal.cols →
                getVal (withDefaults csvMinimal).cols p.2 "Last Updated"
                  = some Value.vNone))) :=
  ⟨rfl, by decide, c8_csv_import store1 csvMinimal rfl (by decide)⟩

end JWP
